import Mathlib

/-!
Verification of core claims about the UCX worker (src/ucp/core/ucp_worker.c)
and the performance engine (src/tools/perf/libperf.c), via a shallow
embedding of the relevant C functions into Lean.

Machine integers are modelled as Nat with explicit wrap-around where it
matters; C doubles that only enter through exact arithmetic are modelled as
rationals; fallible calls return Option/Except; external collaborators
(clock, tick conversion, RTE, scoring) are explicit parameters.
-/

/-- The closed set of status codes used by the code under scrutiny
(ucs_status_t). Only the constructors actually reachable in the embedded
functions are listed. -/
inductive ucs_status_t where
  | UCS_OK
  | UCS_INPROGRESS
  | UCS_ERR_NO_MEMORY
  | UCS_ERR_INVALID_PARAM
  | UCS_ERR_UNSUPPORTED
  | UCS_ERR_IO_ERROR
  | UCS_ERR_NO_DEVICE
  | UCS_ERR_BUSY
  | UCS_ERR_NO_RESOURCE
  deriving DecidableEq, Repr

open ucs_status_t

/-- UINT64_MAX, the unbounded sentinel used by the perf context. -/
def UINT64_MAX : ℕ := 2 ^ 64 - 1

/-! ## Endpoint-configuration cache (ucp_worker.c, ucp_worker_get_ep_config)

The worker holds a bounded array of endpoint configurations `ep_config`
with `ep_config_count` entries used and capacity `ep_config_max`.  We model
the array of stored keys as a list in insertion order; the derived
parameter block attached to each entry is irrelevant to the interning
claims.  Key comparison (`ucp_ep_config_is_equal`, defined outside the
sources at hand) is modelled from the spec: structural equality of all
selection fields, i.e. decidable equality of an abstract key type. -/

structure EpConfigCache (K : Type) where
  ep_config : List K
  ep_config_max : ℕ

/-- Shallow embedding of `ucp_worker_get_ep_config`: linear search for a
structurally equal key; on miss, a fatal error (`none`) when the cache is
full, otherwise append at index `ep_config_count` and bump the count.
Returns the index together with the updated cache. -/
def ucp_worker_get_ep_config {K : Type} [DecidableEq K]
    (w : EpConfigCache K) (key : K) : Option (ℕ × EpConfigCache K) :=
  match w.ep_config.findIdx? (fun k => k = key) with
  | some config_idx => some (config_idx, w)
  | none =>
    if w.ep_config.length ≥ w.ep_config_max then
      none
    else
      some (w.ep_config.length, ⟨w.ep_config ++ [key], w.ep_config_max⟩)

/-- `config_count` computed by `ucp_worker_create`:
`min((num_tls+1)^2 * num_tls, UINT8_MAX)`; this value becomes
`ep_config_max`. -/
def ucp_worker_create_ep_config_max (num_tls : ℕ) : ℕ :=
  min ((num_tls + 1) * (num_tls + 1) * num_tls) 255

/-- Functional two-point update embedding the in-place ELEM_SWAP macro. -/
def fswap (f : ℕ → ℕ) (i j : ℕ) : ℕ → ℕ :=
  fun k => if k = i then f j else if k = j then f i else f k

/-- The window of array values at positions `a, a+1, ..., a+m-1`. -/
def seg (f : ℕ → ℕ) (a m : ℕ) : List ℕ := (List.range' a m).map f

/-- A computation step confined to the window `[low, high]`: positions
outside the window are untouched and the window values are permuted. -/
def StepOk (f g : ℕ → ℕ) (low high : ℕ) : Prop :=
  (∀ k, k < low ∨ high < k → g k = f k) ∧
  (seg g low (high + 1 - low)).Perm (seg f low (high + 1 - low))

/-- The ascending scan `do ll++; while (arr[low] > arr[ll]);` with `p`
the pivot value `arr[low]`.  Fuel-indexed; the proofs below only use it
with enough fuel to reach the first stopping index. -/
def scanUp (f : ℕ → ℕ) (p : ℕ) : ℕ → ℕ → ℕ
  | 0, ll => ll + 1
  | fuel + 1, ll => if f (ll + 1) < p then scanUp f p fuel (ll + 1) else ll + 1

/-- The descending scan `do hh--; while (arr[hh] > arr[low]);`. -/
def scanDown (f : ℕ → ℕ) (p : ℕ) : ℕ → ℕ → ℕ
  | 0, hh => hh - 1
  | fuel + 1, hh => if p < f (hh - 1) then scanDown f p fuel (hh - 1) else hh - 1

/-- First compare of the median-of-three step:
`if (arr[middle] > arr[high]) ELEM_SWAP(arr[middle], arr[high])`. -/
def med3a (f : ℕ → ℕ) (low high : ℕ) : ℕ → ℕ :=
  if f high < f ((low + high) / 2) then fswap f ((low + high) / 2) high else f

/-- Second compare: `if (arr[low] > arr[high]) ELEM_SWAP(arr[low], arr[high])`. -/
def med3b (f : ℕ → ℕ) (low high : ℕ) : ℕ → ℕ :=
  if med3a f low high high < med3a f low high low then
    fswap (med3a f low high) low high
  else med3a f low high

/-- Third compare: `if (arr[middle] > arr[low]) ELEM_SWAP(arr[middle], arr[low])`. -/
def med3c (f : ℕ → ℕ) (low high : ℕ) : ℕ → ℕ :=
  if med3b f low high low < med3b f low high ((low + high) / 2) then
    fswap (med3b f low high) ((low + high) / 2) low
  else med3b f low high

/-- The median-of-three pivot selection: order `low`, `middle`, `high` so
that `arr[low]` holds their median, then stash the smallest (of the three)
at `low+1`: `ELEM_SWAP(arr[middle], arr[low+1])`. -/
def med3 (f : ℕ → ℕ) (low high : ℕ) : ℕ → ℕ :=
  fswap (med3c f low high) ((low + high) / 2) (low + 1)

/-- The pointer-crossing partition loop: scan up for an element ≥ pivot,
scan down for one ≤ pivot, swap while the pointers have not crossed. -/
def nibble (low scanFuel : ℕ) : ℕ → (ℕ → ℕ) → ℕ → ℕ → ((ℕ → ℕ) × ℕ × ℕ)
  | 0, f, ll, hh => (f, ll, hh)
  | fuel + 1, f, ll, hh =>
    let ll' := scanUp f (f low) scanFuel ll
    let hh' := scanDown f (f low) scanFuel hh
    if hh' < ll' then (f, ll', hh')
    else nibble low scanFuel fuel (fswap f ll' hh') ll' hh'

/-- The outer Quickselect loop of `__find_median_quick_select`. -/
def qsLoop (median scanFuel : ℕ) : ℕ → (ℕ → ℕ) → ℕ → ℕ → ℕ
  | 0, f, _, _ => f median
  | fuel + 1, f, low, high =>
    if high ≤ low then f median
    else if high = low + 1 then
      if f high < f low then fswap f low high median else f median
    else
      let r := nibble low scanFuel scanFuel (med3 f low high) (low + 1) high
      qsLoop median scanFuel fuel (fswap r.1 low r.2.2)
        (if r.2.2 ≤ median then r.2.1 else low)
        (if median ≤ r.2.2 then r.2.2 - 1 else high)

/-- Shallow embedding of `__find_median_quick_select(arr, n)`: the array
is read off the list (`low = 0`, `high = n-1`, `median = (n-1)/2`), and
fuel `n` is sufficient for every loop, as proved below. -/
def find_median_quick_select (l : List ℕ) : ℕ :=
  qsLoop ((l.length - 1) / 2) l.length l.length (fun i => l.getD i 0) 0 (l.length - 1)

/-- The value that would occupy index `(n-1)/2` if the list were sorted in
nondecreasing order: the specification of "median" used by the spec. -/
def medianOfList (l : List ℕ) : ℕ :=
  (l.insertionSort (· ≤ ·)).getD ((l.length - 1) / 2) 0

/-- The value at `median` is already in its final sorted position. -/
def Fixed (f : ℕ → ℕ) (median n : ℕ) : Prop :=
  (∀ i, i < median → f i ≤ f median) ∧ ∀ k, median < k → k < n → f median ≤ f k

/-! ## Perf engine data model (libperf.c) -/

inductive ucx_perf_cmd where
  | AM
  | PUT
  | GET
  | ADD
  | FADD
  | SWAP
  | CSWAP
  | TAG
  deriving DecidableEq, Repr

inductive ucx_perf_test_type where
  | PINGPONG
  | STREAM_UNI
  deriving DecidableEq, Repr

/-- The parameter record of a perf run (the fields consulted by the
embedded functions; sizes and counters are uint64/size_t, times are C
doubles modelled as exact rationals). -/
structure ucx_perf_params where
  command : ucx_perf_cmd
  test_type : ucx_perf_test_type
  msg_size_list : List ℕ
  iov_stride : ℕ
  max_outstanding : ℕ
  warmup_iter : ℕ
  max_iter : ℕ
  max_time : ℚ
  report_interval : ℚ

structure ucx_perf_counters where
  time : ℕ
  msgs : ℕ
  bytes : ℕ
  iters : ℕ
  deriving DecidableEq, Repr

structure ucx_perf_value where
  typical : ℚ
  moment_average : ℚ
  total_average : ℚ
  deriving DecidableEq, Repr

structure ucx_perf_result where
  iters : ℕ
  bytes : ℕ
  elapsed_time : ℕ
  latency : ucx_perf_value
  bandwidth : ucx_perf_value
  msgrate : ucx_perf_value
  deriving DecidableEq, Repr

/-- The per-run perf context (the fields of ucx_perf_context_t touched by
the embedded functions). -/
structure ucx_perf_context where
  params : ucx_perf_params
  start_time : ℕ
  prev_time : ℕ
  end_time : ℕ
  max_iter : ℕ
  report_interval : ℕ
  current : ucx_perf_counters
  prev : ucx_perf_counters
  timing_queue_head : ℕ
  timing_queue : List ℕ
  offset : ℕ

/-- uint64 subtraction with wrap-around, for `a - b` on ucs_time_t. -/
def u64_sub (a b : ℕ) : ℕ := (2 ^ 64 + a - b) % 2 ^ 64

/-- Shallow embedding of `ucx_perf_test_reset`.  External collaborators
are parameters: `TIMING_QUEUE_SIZE` (fixed ring capacity from
libperf_int.h), `ucs_time_from_sec` (seconds-to-ticks conversion) and
`now` (the ucs_get_time() monotonic clock sample). -/
def ucx_perf_test_reset (TIMING_QUEUE_SIZE : ℕ) (ucs_time_from_sec : ℚ → ℕ)
    (now : ℕ) (params : ucx_perf_params) : ucx_perf_context where
  params := params
  start_time := now
  prev_time := now
  end_time := if params.max_time = 0 then UINT64_MAX
              else ucs_time_from_sec params.max_time + now
  max_iter := if params.max_iter = 0 then UINT64_MAX else params.max_iter
  report_interval := ucs_time_from_sec params.report_interval
  current := ⟨0, 0, 0, 0⟩
  prev := ⟨now, 0, 0, 0⟩
  timing_queue_head := 0
  timing_queue := List.replicate TIMING_QUEUE_SIZE 0
  offset := 0

/-- Shallow embedding of `ucx_perf_calc_result`.  `sec_value` is
`ucs_time_from_sec(1.0)`; double arithmetic is modelled exactly in ℚ. -/
def ucx_perf_calc_result (ucs_time_from_sec : ℚ → ℕ)
    (perf : ucx_perf_context) : ucx_perf_result :=
  let sec_value : ℚ := (ucs_time_from_sec 1 : ℕ)
  let latency_factor : ℚ :=
    if perf.params.test_type = ucx_perf_test_type.PINGPONG then 2 else 1
  { iters := perf.current.iters
    bytes := perf.current.bytes
    elapsed_time := u64_sub perf.current.time perf.start_time
    latency :=
      { typical :=
          (find_median_quick_select perf.timing_queue : ℚ)
            / sec_value / latency_factor
        moment_average :=
          ((u64_sub perf.current.time perf.prev.time : ℕ) : ℚ)
            / ((u64_sub perf.current.iters perf.prev.iters : ℕ) : ℚ)
            / sec_value / latency_factor
        total_average :=
          ((u64_sub perf.current.time perf.start_time : ℕ) : ℚ)
            / (perf.current.iters : ℚ) / sec_value / latency_factor }
    bandwidth :=
      { typical := 0
        moment_average :=
          ((u64_sub perf.current.bytes perf.prev.bytes : ℕ) : ℚ) * sec_value
            / ((u64_sub perf.current.time perf.prev.time : ℕ) : ℚ)
        total_average :=
          (perf.current.bytes : ℚ) * sec_value
            / ((u64_sub perf.current.time perf.start_time : ℕ) : ℚ) }
    msgrate :=
      { typical := 0
        moment_average :=
          ((u64_sub perf.current.msgs perf.prev.msgs : ℕ) : ℚ) * sec_value
            / ((u64_sub perf.current.time perf.prev.time : ℕ) : ℚ)
        total_average :=
          (perf.current.msgs : ℚ) * sec_value
            / ((u64_sub perf.current.time perf.start_time : ℕ) : ℚ) } }

/-- Shallow embedding of `ucx_perf_set_warmup`: clamp the iteration bound
and disable periodic reporting (`report_interval = -1` stored in a uint64
is `UINT64_MAX`). -/
def ucx_perf_set_warmup (perf : ucx_perf_context) (params : ucx_perf_params) :
    ucx_perf_context :=
  { perf with
      max_iter := min params.warmup_iter (params.max_iter / 10)
      report_interval := UINT64_MAX }

/-- Observable steps of `ucx_perf_run` (single-thread path). -/
inductive ucx_perf_event where
  | reset
  | setup
  | set_warmup
  | run
  | barrier
  | calc_result
  | report
  | cleanup
  deriving DecidableEq, Repr

/-- The tail of `ucx_perf_run` after warmup: measured run, barrier, and on
success result calculation and reporting, then cleanup. -/
def ucx_perf_run_measured_tail (run_status : ucs_status_t) :
    List ucx_perf_event :=
  [.run, .barrier] ++
    (if run_status = UCS_OK then [.calc_result, .report] else []) ++
    [.cleanup]

/-- Event trace of `ucx_perf_run` on its single-thread path, after command
and API validation, with a successful setup.  `warmup_status` and
`run_status` are the statuses returned by the two workload runs. -/
def ucx_perf_run_trace (warmup_iter : ℕ)
    (warmup_status run_status : ucs_status_t) : List ucx_perf_event :=
  [.reset, .setup] ++
    (if 0 < warmup_iter then
      [.set_warmup, .run] ++
        (if warmup_status = UCS_OK then
          [.barrier, .reset] ++ ucx_perf_run_measured_tail run_status
         else [.cleanup])
     else ucx_perf_run_measured_tail run_status)

/-- Shallow embedding of `ucp_perf_test_exchange_status`: after posting
its own status, a peer receives every group member's posted status in
index order (its own included) and any non-OK received status overwrites
the collective status. -/
def ucp_perf_test_exchange_status (received : List ucs_status_t) :
    ucs_status_t :=
  received.foldl
    (fun collective status => if status ≠ UCS_OK then status else collective)
    UCS_OK

/-- The tail of `ucp_perf_test_setup_endpoints`: after a successful local
setup the peer contributes UCS_OK; when the exchanged collective status is
non-OK the created endpoints are destroyed.  Returns the final status and
whether the endpoints were torn down. -/
def ucp_perf_test_setup_endpoints_finish (received : List ucs_status_t) :
    ucs_status_t × Bool :=
  let status := ucp_perf_test_exchange_status received
  if status ≠ UCS_OK then (status, true) else (status, false)

/-- Shallow embedding of the aggregation loop at the end of
`ucx_perf_thread_spawn`: status starts as UCS_OK (setup succeeded) and
every non-OK per-thread slot overwrites it in index order. -/
def ucx_perf_thread_spawn_status (statuses : List ucs_status_t) :
    ucs_status_t :=
  statuses.foldl (fun status s => if s ≠ UCS_OK then s else status) UCS_OK

/-- The claim's reading of the aggregation (spec §4.9: "the first such
error wins"), written from the spec's words for comparison with the
code's loop. -/
def first_error_status (statuses : List ucs_status_t) : ucs_status_t :=
  (statuses.find? (fun s => s ≠ UCS_OK)).getD UCS_OK

/-- Modelled from the spec: `ucx_perf_get_message_size` is declared in
libperf_int.h, which is not among the sources at hand.  Per the spec (§3:
`msg_size_list`: ordered sequence of lengths (IOV); §4.6 size bounds are
checked against the total message size), the total message size is the
sum of the `msg_size_cnt` entries of `msg_size_list`. -/
def ucx_perf_get_message_size (params : ucx_perf_params) : ℕ :=
  params.msg_size_list.sum

/-- Shallow embedding of `ucx_perf_test_check_params` (the generic
validation shared by both API families). -/
def ucx_perf_test_check_params (params : ucx_perf_params) : ucs_status_t :=
  if ucx_perf_get_message_size params < 1 then UCS_ERR_INVALID_PARAM
  else if params.max_outstanding < 1 then UCS_ERR_INVALID_PARAM
  else if params.iov_stride ≠ 0 ∧
      params.msg_size_list.any (fun m => params.iov_stride < m) then
    UCS_ERR_INVALID_PARAM
  else UCS_OK

inductive ucp_feature where
  | UCP_FEATURE_RMA
  | UCP_FEATURE_AMO32
  | UCP_FEATURE_AMO64
  | UCP_FEATURE_TAG
  deriving DecidableEq, Repr

/-- Shallow embedding of `ucp_perf_test_check_params`: map the command to
the required UCP feature (for atomics, by total message size 4 or 8),
then run the generic checks.  The C function stores the size_t total in a
local declared `ucs_status_t` — an enum whose compatible type is the
32-bit int on the ABIs at hand — so the value is truncated modulo 2^32
before the 4/8 comparison (a negative truncation compares unequal to both
4 and 8 after the usual arithmetic conversions, which the mod-2^32
comparison also captures); the generic checks recompute the untruncated
total themselves.  Returns the feature on success and the error status
otherwise. -/
def ucp_perf_test_check_params (params : ucx_perf_params) :
    Except ucs_status_t ucp_feature :=
  let message_size := ucx_perf_get_message_size params % 2 ^ 32
  let featRes : Except ucs_status_t ucp_feature :=
    match params.command with
    | .PUT => .ok .UCP_FEATURE_RMA
    | .GET => .ok .UCP_FEATURE_RMA
    | .ADD | .FADD | .SWAP | .CSWAP =>
      if message_size = 4 then .ok .UCP_FEATURE_AMO32
      else if message_size = 8 then .ok .UCP_FEATURE_AMO64
      else .error UCS_ERR_INVALID_PARAM
    | .TAG => .ok .UCP_FEATURE_TAG
    | .AM => .error UCS_ERR_INVALID_PARAM
  match featRes with
  | .error e => .error e
  | .ok feat =>
    match ucx_perf_test_check_params params with
    | UCS_OK => .ok feat
    | e => .error e

/-! ## Worker atomic-resource selection (ucp_worker.c) -/

inductive ucp_atomic_mode where
  | CPU
  | DEVICE
  | GUESS
  deriving DecidableEq, Repr

def UCT_IFACE_FLAG_ATOMIC_CPU : ℕ := 2 ^ 30

def UCT_IFACE_FLAG_ATOMIC_DEVICE : ℕ := 2 ^ 31

def UCT_MD_FLAG_REG : ℕ := 2 ^ 1

/-- `ucs_test_all_flags(value, flags)`: all bits of `flags` are set. -/
def ucs_test_all_flags (value flags : ℕ) : Bool := value &&& flags == flags

/-- The worker/context state consulted by `ucp_worker_init_atomic_tls`.
Per-resource attributes are functions of the resource index; the external
`ucp_wireup_amo_score_func` (evaluated at the fixed dummy peer profile)
and `ucp_context_uct_atomic_iface_flags` are parameters.  Device names
are opaque identifiers compared for equality (strncmp up to the name
bound). -/
structure AtomicCtx where
  num_tls : ℕ
  feature_amo32 : Bool
  feature_amo64 : Bool
  atomic_mode : ucp_atomic_mode
  iface_cap_flags : ℕ → ℕ
  md_cap_flags : ℕ → ℕ
  md_index : ℕ → ℕ
  dev_name : ℕ → ℕ
  priority : ℕ → ℕ
  score : ℕ → ℚ
  atomic_iface_flags : ℕ

/-- `ucp_worker_init_cpu_atomics`: enable every resource whose interface
advertises CPU atomics.  The `atomic_tls` bitmask of resource indices is
modelled as the finite set of enabled indices. -/
def ucp_worker_init_cpu_atomics (ctx : AtomicCtx) : Finset ℕ :=
  (Finset.range ctx.num_tls).filter
    (fun i => ctx.iface_cap_flags i &&& UCT_IFACE_FLAG_ATOMIC_CPU ≠ 0)

/-- One step of the best-resource selection loop of
`ucp_worker_init_device_atomics`.  State: supported set, best resource,
best score, best priority. -/
def device_select_step (ctx : AtomicCtx)
    (st : Finset ℕ × Option ℕ × ℚ × ℕ) (i : ℕ) :
    Finset ℕ × Option ℕ × ℚ × ℕ :=
  if ctx.md_cap_flags (ctx.md_index i) &&& UCT_MD_FLAG_REG = 0 ∨
      ucs_test_all_flags (ctx.iface_cap_flags i)
        (ctx.atomic_iface_flags ||| UCT_IFACE_FLAG_ATOMIC_DEVICE) = false then
    st
  else if st.2.2.1 < ctx.score i ∨
      (ctx.score i = st.2.2.1 ∧ st.2.2.2 < ctx.priority i) then
    (insert i st.1, some i, ctx.score i, ctx.priority i)
  else
    (insert i st.1, st.2.1, st.2.2.1, st.2.2.2)

/-- The selection loop of `ucp_worker_init_device_atomics`: scan all
resources, collecting the supported ones and the best-scoring one
(`best_score` starts at -1, ties broken by higher priority). -/
def ucp_worker_init_device_atomics_select (ctx : AtomicCtx) :
    Finset ℕ × Option ℕ × ℚ × ℕ :=
  (List.range ctx.num_tls).foldl (device_select_step ctx) (∅, none, -1, 0)

/-- `ucp_worker_init_device_atomics`: when no resource qualifies, log
"no support for atomics" and leave the mask empty; otherwise enable every
supported resource on the same memory domain and device as the best. -/
def ucp_worker_init_device_atomics (ctx : AtomicCtx) : Finset ℕ :=
  match (ucp_worker_init_device_atomics_select ctx).2.1 with
  | none => ∅
  | some best =>
    (Finset.range ctx.num_tls).filter
      (fun i => i ∈ (ucp_worker_init_device_atomics_select ctx).1 ∧
        ctx.md_index i = ctx.md_index best ∧
        ctx.dev_name i = ctx.dev_name best)

/-- `ucp_worker_init_guess_atomics`: device policy if any interface
advertises device atomics, else CPU policy. -/
def ucp_worker_init_guess_atomics (ctx : AtomicCtx) : Finset ℕ :=
  if ((List.range ctx.num_tls).foldl
      (fun acc i => acc ||| ctx.iface_cap_flags i) 0) &&&
      UCT_IFACE_FLAG_ATOMIC_DEVICE ≠ 0 then
    ucp_worker_init_device_atomics ctx
  else
    ucp_worker_init_cpu_atomics ctx

/-- `ucp_worker_init_atomic_tls`: clear the mask; run the configured
policy only when the feature set requests 32- or 64-bit atomics. -/
def ucp_worker_init_atomic_tls (ctx : AtomicCtx) : Finset ℕ :=
  if ctx.feature_amo32 || ctx.feature_amo64 then
    match ctx.atomic_mode with
    | .CPU => ucp_worker_init_cpu_atomics ctx
    | .DEVICE => ucp_worker_init_device_atomics ctx
    | .GUESS => ucp_worker_init_guess_atomics ctx
  else ∅

/-! ## Worker thread mode (ucp_worker_create / ucp_worker_query) -/

inductive ucs_thread_mode where
  | SINGLE
  | SERIALIZED
  | MULTI
  deriving DecidableEq, Repr

inductive ucp_mt_type where
  | NONE
  | MUTEX
  | SPINLOCK
  deriving DecidableEq, Repr

/-- Thread-mode derivation in `ucp_worker_create`: the requested mode when
the field mask carries UCP_WORKER_PARAM_FIELD_THREAD_MODE, else SINGLE. -/
def ucp_worker_create_thread_mode (field_mask_has_thread_mode : Bool)
    (requested : ucs_thread_mode) : ucs_thread_mode :=
  if field_mask_has_thread_mode then requested else .SINGLE

/-- Lock selection in `ucp_worker_create`: no lock unless MULTI; under
MULTI, mutex or spinlock per context configuration. -/
def ucp_worker_create_mt_type (thread_mode : ucs_thread_mode)
    (use_mt_mutex : Bool) : ucp_mt_type :=
  if thread_mode ≠ ucs_thread_mode.MULTI then .NONE
  else if use_mt_mutex then .MUTEX
  else .SPINLOCK

/-- Modelled from the spec: `UCP_THREAD_IS_REQUIRED` (ucp_thread.h, not
among the sources at hand) — thread synchronization is required iff a
lock was installed, i.e. the lock type is not NONE (§3: "Optional
mutex/spinlock selected from thread mode at construction"). -/
def UCP_THREAD_IS_REQUIRED (mt_type : ucp_mt_type) : Bool :=
  mt_type ≠ ucp_mt_type.NONE

/-- `ucp_worker_query` with UCP_WORKER_ATTR_FIELD_THREAD_MODE requested:
report MULTI iff a lock was installed, else SINGLE. -/
def ucp_worker_query_thread_mode (mt_type : ucp_mt_type) : ucs_thread_mode :=
  if UCP_THREAD_IS_REQUIRED mt_type then .MULTI else .SINGLE

theorem ep_config_max_le_255 (num_tls : ℕ) :
    ucp_worker_create_ep_config_max num_tls ≤ 255 := by
  exact min_le_right _ _

lemma findIdx?_eq_none_of_not_mem {K : Type} [DecidableEq K]
    {l : List K} {key : K} (h : key ∉ l) :
    l.findIdx? (fun k => k = key) = none := by
  rw [List.findIdx?_eq_none_iff]
  intro x hx
  simp only [decide_eq_false_iff_not]
  exact fun hxk => h (hxk ▸ hx)

lemma findIdx?_append_self {K : Type} [DecidableEq K]
    {l : List K} {key : K} (h : key ∉ l) :
    (l ++ [key]).findIdx? (fun k => k = key) = some l.length := by
  rw [List.findIdx?_append, findIdx?_eq_none_of_not_mem h, Option.none_or]
  simp [List.findIdx?]

/-- Helper: a hit returns the index of the first equal key and leaves the
cache unchanged. -/
lemma get_ep_config_mem {K : Type} [DecidableEq K]
    (w : EpConfigCache K) (key : K) (i : ℕ)
    (h : w.ep_config.findIdx? (fun k => k = key) = some i) :
    ucp_worker_get_ep_config w key = some (i, w) := by
  simp [ucp_worker_get_ep_config, h]

/-- Helper: a miss on a non-full cache appends and returns the old count. -/
lemma get_ep_config_fresh {K : Type} [DecidableEq K]
    (w : EpConfigCache K) (key : K) (hmem : key ∉ w.ep_config)
    (hroom : w.ep_config.length < w.ep_config_max) :
    ucp_worker_get_ep_config w key =
      some (w.ep_config.length, ⟨w.ep_config ++ [key], w.ep_config_max⟩) := by
  simp [ucp_worker_get_ep_config, findIdx?_eq_none_of_not_mem hmem,
        Nat.not_le.mpr hroom]

lemma not_mem_of_findIdx?_eq_none {K : Type} [DecidableEq K]
    {l : List K} {key : K} (h : l.findIdx? (fun k => k = key) = none) :
    key ∉ l := by
  rw [List.findIdx?_eq_none_iff] at h
  intro hmem
  have := h key hmem
  simp at this

/-- C1: endpoint-config interning.  Repeating `ucp_worker_get_ep_config`
with a structurally equal key returns the same index, distinct new keys
receive successive indices in insertion order, every returned index is at
most 255 (since `ep_config_max` from `ucp_worker_create` is capped at
UINT8_MAX), and a miss on a full cache is fatal. -/
theorem C1_ep_config_interning {K : Type} [DecidableEq K] (n : ℕ)
    (w : EpConfigCache K) (k k2 : K)
    (hinv : w.ep_config.length ≤ w.ep_config_max)
    (hmax : w.ep_config_max = ucp_worker_create_ep_config_max n) :
    (∀ i w', ucp_worker_get_ep_config w k = some (i, w') →
      ucp_worker_get_ep_config w' k = some (i, w')) ∧
    (∀ i w', ucp_worker_get_ep_config w k = some (i, w') → i ≤ 255) ∧
    (k ∉ w.ep_config → k2 ≠ k → k2 ∉ w.ep_config →
      w.ep_config.length + 1 < w.ep_config_max →
      ∃ w1 w2, ucp_worker_get_ep_config w k = some (w.ep_config.length, w1) ∧
        ucp_worker_get_ep_config w1 k2 = some (w.ep_config.length + 1, w2)) ∧
    (w.ep_config_max ≤ w.ep_config.length → k ∉ w.ep_config →
      ucp_worker_get_ep_config w k = none) := by
  have hb : w.ep_config_max ≤ 255 := by
    rw [hmax]; exact min_le_right _ _
  refine ⟨?_, ?_, ?_, ?_⟩
  · intro i w' h
    unfold ucp_worker_get_ep_config at h
    cases hf : w.ep_config.findIdx? (fun x => x = k) with
    | some i0 =>
      rw [hf] at h
      obtain ⟨rfl, rfl⟩ := by simpa using h
      simp [ucp_worker_get_ep_config, hf]
    | none =>
      rw [hf] at h
      by_cases hfull : w.ep_config.length ≥ w.ep_config_max
      · simp [hfull] at h
      · simp only [hfull, if_false, ge_iff_le] at h
        obtain ⟨rfl, rfl⟩ := by simpa using h
        have hnm : k ∉ w.ep_config := not_mem_of_findIdx?_eq_none hf
        simp [ucp_worker_get_ep_config, findIdx?_append_self hnm]
  · intro i w' h
    unfold ucp_worker_get_ep_config at h
    cases hf : w.ep_config.findIdx? (fun x => x = k) with
    | some i0 =>
      rw [hf] at h
      obtain ⟨rfl, rfl⟩ := by simpa using h
      have := (List.findIdx?_eq_some_iff_findIdx_eq.mp hf).1
      omega
    | none =>
      rw [hf] at h
      by_cases hfull : w.ep_config.length ≥ w.ep_config_max
      · simp [hfull] at h
      · simp only [hfull, if_false, ge_iff_le] at h
        obtain ⟨rfl, rfl⟩ := by simpa using h
        omega
  · intro h1 h2 h3 hroom
    refine ⟨⟨w.ep_config ++ [k], w.ep_config_max⟩,
      ⟨(w.ep_config ++ [k]) ++ [k2], w.ep_config_max⟩, ?_, ?_⟩
    · exact get_ep_config_fresh w k h1 (by omega)
    · have hnm2 : k2 ∉ w.ep_config ++ [k] := by
        simp only [List.mem_append, List.mem_singleton]
        rintro (h | h)
        · exact h3 h
        · exact h2 h
      have := get_ep_config_fresh ⟨w.ep_config ++ [k], w.ep_config_max⟩ k2 hnm2
        (by simp only [List.length_append, List.length_singleton]; omega)
      simpa using this
  · intro hfull hnm
    simp [ucp_worker_get_ep_config, findIdx?_eq_none_of_not_mem hnm, hfull]

theorem C1_ep_config_interning_witness :
    ∃ w1 w2, ucp_worker_get_ep_config (⟨[], 4⟩ : EpConfigCache ℕ) 0 = some (0, w1) ∧
      ucp_worker_get_ep_config w1 1 = some (1, w2) :=
  (C1_ep_config_interning 1 ⟨[], 4⟩ 0 1 (by decide) (by decide)).2.2.1
    (by decide) (by decide) (by decide) (by decide)

lemma fswap_left (f : ℕ → ℕ) (i j : ℕ) : fswap f i j i = f j := by
  simp [fswap]

lemma fswap_right (f : ℕ → ℕ) (i j : ℕ) : fswap f i j j = f i := by
  rcases eq_or_ne j i with rfl | h
  · simp [fswap]
  · simp [fswap, h]

lemma fswap_other (f : ℕ → ℕ) {i j k : ℕ} (hki : k ≠ i) (hkj : k ≠ j) :
    fswap f i j k = f k := by
  simp [fswap, hki, hkj]

lemma fswap_same (f : ℕ → ℕ) (i : ℕ) : fswap f i i = f := by
  funext k
  rcases eq_or_ne k i with rfl | h
  · simp [fswap]
  · simp [fswap, h]

lemma fswap_comm (f : ℕ → ℕ) (i j : ℕ) : fswap f i j = fswap f j i := by
  funext k
  by_cases h1 : k = i
  · by_cases h2 : k = j
    · have hij : i = j := h1.symm.trans h2
      rw [hij]
    · rw [h1, fswap_left, fswap_right]
  · by_cases h2 : k = j
    · rw [h2, fswap_right, fswap_left]
    · rw [fswap_other f h1 h2, fswap_other f h2 h1]

lemma seg_length (f : ℕ → ℕ) (a m : ℕ) : (seg f a m).length = m := by
  simp [seg]

lemma mem_seg {f : ℕ → ℕ} {a m x : ℕ} :
    x ∈ seg f a m ↔ ∃ k, a ≤ k ∧ k < a + m ∧ f k = x := by
  simp only [seg, List.mem_map, List.mem_range'_1]
  constructor
  · rintro ⟨k, ⟨h1, h2⟩, rfl⟩; exact ⟨k, h1, h2, rfl⟩
  · rintro ⟨k, h1, h2, rfl⟩; exact ⟨k, ⟨h1, h2⟩, rfl⟩

lemma seg_mem_self {f : ℕ → ℕ} {a m k : ℕ} (h1 : a ≤ k) (h2 : k < a + m) :
    f k ∈ seg f a m :=
  mem_seg.mpr ⟨k, h1, h2, rfl⟩

lemma seg_split (f : ℕ → ℕ) (a m m₁ : ℕ) (h : m₁ ≤ m) :
    seg f a m = seg f a m₁ ++ seg f (a + m₁) (m - m₁) := by
  have hr : List.range' a m = List.range' a m₁ ++ List.range' (a + m₁) (m - m₁) := by
    rw [List.range'_append_1]
    have h2 : m = m - m₁ + m₁ := by omega
    rw [← h2]
  unfold seg
  rw [hr, List.map_append]

lemma seg_congr {f g : ℕ → ℕ} {a m : ℕ}
    (h : ∀ k, a ≤ k → k < a + m → f k = g k) : seg f a m = seg g a m := by
  unfold seg
  apply List.map_congr_left
  intro k hk
  rw [List.mem_range'_1] at hk
  exact h k hk.1 hk.2

lemma seg_succ (f : ℕ → ℕ) (a m : ℕ) :
    seg f a (m + 1) = f a :: seg f (a + 1) m := by
  unfold seg
  rw [List.range'_succ]
  rfl

lemma seg_decomp2 (g : ℕ → ℕ) (a m i j : ℕ)
    (hai : a ≤ i) (hij : i < j) (hjm : j < a + m) :
    seg g a m = seg g a (i - a) ++ g i ::
      (seg g (i + 1) (j - i - 1) ++ g j :: seg g (j + 1) (a + m - j - 1)) := by
  have h1 : seg g a m = seg g a (i - a) ++ seg g i (m - (i - a)) := by
    have := seg_split g a m (i - a) (by omega)
    rwa [show a + (i - a) = i by omega] at this
  have h2 : seg g i (m - (i - a)) = g i :: seg g (i + 1) (m - (i - a) - 1) := by
    obtain ⟨t, ht⟩ : ∃ t, m - (i - a) = t + 1 := ⟨m - (i - a) - 1, by omega⟩
    rw [ht, seg_succ, show t = m - (i - a) - 1 by omega,
      show m - (i - a) - 1 + 1 - 1 = m - (i - a) - 1 by omega]
  have h3 : seg g (i + 1) (m - (i - a) - 1) =
      seg g (i + 1) (j - i - 1) ++ seg g (j + 1 - 1) (m - (i - a) - 1 - (j - i - 1)) := by
    have := seg_split g (i + 1) (m - (i - a) - 1) (j - i - 1) (by omega)
    rwa [show i + 1 + (j - i - 1) = j + 1 - 1 by omega] at this
  have h4 : seg g (j + 1 - 1) (m - (i - a) - 1 - (j - i - 1)) =
      g j :: seg g (j + 1) (a + m - j - 1) := by
    obtain ⟨t, ht⟩ : ∃ t, m - (i - a) - 1 - (j - i - 1) = t + 1 := ⟨a + m - j - 1, by omega⟩
    rw [ht, show j + 1 - 1 = j by omega, seg_succ, show t = a + m - j - 1 by omega]
  rw [h1, h2, h3, h4]

lemma seg_perm_fswap_aux (f : ℕ → ℕ) {a m i j : ℕ}
    (hai : a ≤ i) (hij : i < j) (hjm : j < a + m) :
    (seg (fswap f i j) a m).Perm (seg f a m) := by
  have hd1 := seg_decomp2 (fswap f i j) a m i j hai hij hjm
  have hd2 := seg_decomp2 f a m i j hai hij hjm
  have e1 : seg (fswap f i j) a (i - a) = seg f a (i - a) := by
    apply seg_congr
    intro k hk1 hk2
    exact fswap_other f (by omega) (by omega)
  have e2 : seg (fswap f i j) (i + 1) (j - i - 1) = seg f (i + 1) (j - i - 1) := by
    apply seg_congr
    intro k hk1 hk2
    exact fswap_other f (by omega) (by omega)
  have e3 : seg (fswap f i j) (j + 1) (a + m - j - 1) = seg f (j + 1) (a + m - j - 1) := by
    apply seg_congr
    intro k hk1 hk2
    exact fswap_other f (by omega) (by omega)
  rw [hd1, hd2, e1, e2, e3, fswap_left, fswap_right]
  refine List.Perm.append_left _ ?_
  refine (List.Perm.cons _ List.perm_middle).trans ?_
  refine (List.Perm.swap _ _ _).trans ?_
  exact List.Perm.cons _ List.perm_middle.symm

/-- Permuting two values inside a window permutes the window. -/
lemma seg_perm_fswap (f : ℕ → ℕ) {a m i j : ℕ}
    (hai : a ≤ i) (him : i < a + m) (haj : a ≤ j) (hjm : j < a + m) :
    (seg (fswap f i j) a m).Perm (seg f a m) := by
  rcases Nat.lt_trichotomy i j with hlt | rfl | hgt
  · exact seg_perm_fswap_aux f hai hlt hjm
  · rw [fswap_same]
  · rw [fswap_comm]
    exact seg_perm_fswap_aux f haj hgt him

lemma StepOk_refl (f : ℕ → ℕ) (low high : ℕ) : StepOk f f low high :=
  ⟨fun _ _ => rfl, List.Perm.refl _⟩

lemma StepOk_trans {f g h : ℕ → ℕ} {low high : ℕ}
    (h1 : StepOk f g low high) (h2 : StepOk g h low high) : StepOk f h low high :=
  ⟨fun k hk => (h2.1 k hk).trans (h1.1 k hk), h2.2.trans h1.2⟩

lemma StepOk_fswap (f : ℕ → ℕ) {low high i j : ℕ}
    (hli : low ≤ i) (hih : i ≤ high) (hlj : low ≤ j) (hjh : j ≤ high) :
    StepOk f (fswap f i j) low high := by
  constructor
  · intro k hk
    exact fswap_other f (by omega) (by omega)
  · exact seg_perm_fswap f hli (by omega) hlj (by omega)

lemma StepOk_mono {f g : ℕ → ℕ} {low high low' high' : ℕ}
    (hst : StepOk f g low' high') (hll : low ≤ low') (hlh : low' ≤ high')
    (hhh : high' ≤ high) : StepOk f g low high := by
  obtain ⟨hframe, hperm⟩ := hst
  constructor
  · intro k hk
    exact hframe k (by omega)
  · have hs1 : ∀ h' : ℕ → ℕ, seg h' low (high + 1 - low) =
        seg h' low (low' - low) ++ seg h' low' (high' + 1 - low') ++
          seg h' (high' + 1) (high - high') := by
      intro h'
      have e1 := seg_split h' low (high + 1 - low) (low' - low) (by omega)
      rw [show low + (low' - low) = low' by omega] at e1
      have e2 := seg_split h' low' (high + 1 - low - (low' - low)) (high' + 1 - low')
        (by omega)
      rw [show low' + (high' + 1 - low') = high' + 1 by omega,
        show high + 1 - low - (low' - low) - (high' + 1 - low') = high - high' by omega]
        at e2
      rw [e1, e2, List.append_assoc]
    have eqlow : seg g low (low' - low) = seg f low (low' - low) := by
      apply seg_congr
      intro k hk1 hk2
      exact hframe k (by omega)
    have eqhigh : seg g (high' + 1) (high - high') = seg f (high' + 1) (high - high') := by
      apply seg_congr
      intro k hk1 hk2
      exact hframe k (by omega)
    rw [hs1 g, hs1 f, eqlow, eqhigh]
    exact List.Perm.append (List.Perm.append_left _ hperm) (List.Perm.refl _)

lemma StepOk_values {f g : ℕ → ℕ} {low high k : ℕ}
    (hst : StepOk f g low high) (h1 : low ≤ k) (h2 : k ≤ high) :
    ∃ k', low ≤ k' ∧ k' ≤ high ∧ g k = f k' := by
  have hmem : g k ∈ seg g low (high + 1 - low) := seg_mem_self h1 (by omega)
  have hmem2 : g k ∈ seg f low (high + 1 - low) := hst.2.mem_iff.mp hmem
  obtain ⟨k', hk1, hk2, hk3⟩ := mem_seg.mp hmem2
  exact ⟨k', hk1, by omega, hk3.symm⟩

/-- Transfer of the prefix-dominance invariant across a window-confined step. -/
lemma lowBound_transfer {f g : ℕ → ℕ} {low high n : ℕ}
    (hst : StepOk f g low high) (hhn : high < n)
    (hB : ∀ i j, i < low → low ≤ j → j < n → f i ≤ f j) :
    ∀ i j, i < low → low ≤ j → j < n → g i ≤ g j := by
  intro i j hi hj hjn
  rw [hst.1 i (Or.inl hi)]
  by_cases hjh : j ≤ high
  · obtain ⟨j', hj1, hj2, hgj⟩ := StepOk_values hst hj hjh
    rw [hgj]
    exact hB i j' hi hj1 (by omega)
  · rw [hst.1 j (Or.inr (by omega))]
    exact hB i j hi hj hjn

/-- Transfer of the suffix-dominance invariant across a window-confined step. -/
lemma highBound_transfer {f g : ℕ → ℕ} {low high n : ℕ}
    (hst : StepOk f g low high) (hhn : high < n)
    (hC : ∀ j k, j ≤ high → high < k → k < n → f j ≤ f k) :
    ∀ j k, j ≤ high → high < k → k < n → g j ≤ g k := by
  intro j k hj hk hkn
  rw [hst.1 k (Or.inr hk)]
  by_cases hjl : j < low
  · rw [hst.1 j (Or.inl hjl)]
    exact hC j k hj hk hkn
  · obtain ⟨j', hj1, hj2, hgj⟩ := StepOk_values hst (by omega) hj
    rw [hgj]
    exact hC j' k hj2 hk hkn

lemma scanUp_spec (f : ℕ → ℕ) (p : ℕ) :
    ∀ fuel i j, i < j → j ≤ i + fuel → p ≤ f j →
      i < scanUp f p fuel i ∧ scanUp f p fuel i ≤ j ∧ p ≤ f (scanUp f p fuel i) ∧
        ∀ k, i < k → k < scanUp f p fuel i → f k < p := by
  intro fuel
  induction fuel with
  | zero => intro i j h1 h2 h3; omega
  | succ fuel ih =>
    intro i j h1 h2 h3
    by_cases hc : f (i + 1) < p
    · have hne : j ≠ i + 1 := by
        intro he
        rw [he] at h3
        omega
      have hj1 : i + 1 < j := by omega
      obtain ⟨A, B, C, D⟩ := ih (i + 1) j hj1 (by omega) h3
      rw [show scanUp f p (fuel + 1) i = scanUp f p fuel (i + 1) by
        simp [scanUp, hc]]
      refine ⟨by omega, B, C, ?_⟩
      intro k hk1 hk2
      rcases Nat.eq_or_lt_of_le hk1 with he | hlt
      · rw [← he]
        exact hc
      · exact D k hlt hk2
    · rw [show scanUp f p (fuel + 1) i = i + 1 by simp [scanUp, hc]]
      exact ⟨by omega, by omega, by omega, by intro k hk1 hk2; omega⟩

lemma scanDown_spec (f : ℕ → ℕ) (p : ℕ) :
    ∀ fuel i j, j < i → i ≤ j + fuel → f j ≤ p →
      scanDown f p fuel i < i ∧ j ≤ scanDown f p fuel i ∧ f (scanDown f p fuel i) ≤ p ∧
        ∀ k, scanDown f p fuel i < k → k < i → p < f k := by
  intro fuel
  induction fuel with
  | zero => intro i j h1 h2 h3; omega
  | succ fuel ih =>
    intro i j h1 h2 h3
    by_cases hc : p < f (i - 1)
    · have hne : j ≠ i - 1 := by
        intro he
        rw [he] at h3
        omega
      have hj1 : j < i - 1 := by omega
      obtain ⟨A, B, C, D⟩ := ih (i - 1) j hj1 (by omega) h3
      rw [show scanDown f p (fuel + 1) i = scanDown f p fuel (i - 1) by
        simp [scanDown, hc]]
      refine ⟨by omega, B, C, ?_⟩
      intro k hk1 hk2
      rcases Nat.lt_or_ge k (i - 1) with hlt | hge
      · exact D k hk1 hlt
      · rw [show k = i - 1 by omega]
        exact hc
    · rw [show scanDown f p (fuel + 1) i = i - 1 by simp [scanDown, hc]]
      refine ⟨by omega, by omega, by omega, ?_⟩
      intro k hk1 hk2
      omega

lemma med3_facts (f : ℕ → ℕ) (low high : ℕ) (h : low + 2 ≤ high) :
    med3 f low high (low + 1) ≤ med3 f low high low ∧
    med3 f low high low ≤ med3 f low high high ∧
    StepOk f (med3 f low high) low high := by
  have hm1 : low + 1 ≤ (low + high) / 2 := by omega
  have hm2 : (low + high) / 2 ≤ high - 1 := by omega
  have hml : (low + high) / 2 ≠ low := by omega
  have hmh : (low + high) / 2 ≠ high := by omega
  have hlh : low ≠ high := by omega
  -- step 1
  have ha1 : med3a f low high ((low + high) / 2) ≤ med3a f low high high := by
    unfold med3a
    by_cases hc : f high < f ((low + high) / 2)
    · rw [if_pos hc, fswap_left, fswap_right]
      omega
    · rw [if_neg hc]
      omega
  have ha2 : StepOk f (med3a f low high) low high := by
    unfold med3a
    by_cases hc : f high < f ((low + high) / 2)
    · rw [if_pos hc]
      exact StepOk_fswap f (by omega) (by omega) (by omega) (le_refl high)
    · rw [if_neg hc]
      exact StepOk_refl f low high
  -- step 2
  have hb1 : med3b f low high low ≤ med3b f low high high := by
    unfold med3b
    by_cases hc : med3a f low high high < med3a f low high low
    · rw [if_pos hc, fswap_left, fswap_right]
      omega
    · rw [if_neg hc]
      omega
  have hb2 : med3b f low high ((low + high) / 2) ≤ med3b f low high high := by
    unfold med3b
    by_cases hc : med3a f low high high < med3a f low high low
    · rw [if_pos hc, fswap_right, fswap_other (med3a f low high) hml hmh]
      omega
    · rw [if_neg hc]
      exact ha1
  have hb3 : StepOk f (med3b f low high) low high := by
    unfold med3b
    by_cases hc : med3a f low high high < med3a f low high low
    · rw [if_pos hc]
      exact StepOk_trans ha2
        (StepOk_fswap (med3a f low high) (le_refl low) (by omega) (by omega) (le_refl high))
    · rw [if_neg hc]
      exact ha2
  -- step 3
  have hc1 : med3c f low high ((low + high) / 2) ≤ med3c f low high low := by
    unfold med3c
    by_cases hc : med3b f low high low < med3b f low high ((low + high) / 2)
    · rw [if_pos hc, fswap_left, fswap_right]
      omega
    · rw [if_neg hc]
      omega
  have hc2 : med3c f low high low ≤ med3c f low high high := by
    unfold med3c
    by_cases hc : med3b f low high low < med3b f low high ((low + high) / 2)
    · rw [if_pos hc, fswap_right, fswap_other (med3b f low high) (Ne.symm hmh) (Ne.symm hlh)]
      omega
    · rw [if_neg hc]
      exact hb1
  have hc3 : StepOk f (med3c f low high) low high := by
    unfold med3c
    by_cases hc : med3b f low high low < med3b f low high ((low + high) / 2)
    · rw [if_pos hc]
      exact StepOk_trans hb3
        (StepOk_fswap (med3b f low high) (by omega) (by omega) (le_refl low) (by omega))
    · rw [if_neg hc]
      exact hb3
  -- step 4
  have hd1 : med3 f low high (low + 1) = med3c f low high ((low + high) / 2) := by
    unfold med3
    exact fswap_right _ _ _
  have hd2 : med3 f low high low = med3c f low high low := by
    unfold med3
    exact fswap_other _ (Ne.symm hml) (by omega)
  have hd3 : med3 f low high high = med3c f low high high := by
    unfold med3
    exact fswap_other _ (Ne.symm hmh) (by omega)
  refine ⟨?_, ?_, ?_⟩
  · rw [hd1, hd2]
    exact hc1
  · rw [hd2, hd3]
    exact hc2
  · unfold med3
    exact StepOk_trans hc3
      (StepOk_fswap (med3c f low high) (by omega) (by omega) (by omega) (by omega))

lemma nibble_succ (low scanFuel fuel : ℕ) (f : ℕ → ℕ) (ll hh : ℕ) :
    nibble low scanFuel (fuel + 1) f ll hh =
      if scanDown f (f low) scanFuel hh < scanUp f (f low) scanFuel ll then
        (f, scanUp f (f low) scanFuel ll, scanDown f (f low) scanFuel hh)
      else
        nibble low scanFuel fuel
          (fswap f (scanUp f (f low) scanFuel ll) (scanDown f (f low) scanFuel hh))
          (scanUp f (f low) scanFuel ll) (scanDown f (f low) scanFuel hh) := rfl

/-- Full postcondition of the partition loop: pivot untouched at `low`,
everything strictly left of the final `ll` is ≤ pivot, everything strictly
right of the final `hh` is ≥ pivot, the pointers have crossed, both are
interior to the window, and only window positions were permuted. -/
lemma nibble_spec (low high n p : ℕ) (h5 : low + 2 ≤ high) (h6 : high < n) :
    ∀ fuel (f : ℕ → ℕ) (ll hh : ℕ),
      f low = p →
      (∀ k, low < k → k ≤ ll → f k ≤ p) →
      (∀ k, hh ≤ k → k ≤ high → p ≤ f k) →
      low + 1 ≤ ll → ll ≤ hh → hh ≤ high → ll < high →
      hh - ll < fuel →
      (nibble low n fuel f ll hh).1 low = p ∧
      (∀ k, low < k → k < (nibble low n fuel f ll hh).2.1 →
        (nibble low n fuel f ll hh).1 k ≤ p) ∧
      (∀ k, (nibble low n fuel f ll hh).2.2 < k → k ≤ high →
        p ≤ (nibble low n fuel f ll hh).1 k) ∧
      (nibble low n fuel f ll hh).2.2 < (nibble low n fuel f ll hh).2.1 ∧
      low ≤ (nibble low n fuel f ll hh).2.2 ∧
      (nibble low n fuel f ll hh).2.2 < high ∧
      low + 1 < (nibble low n fuel f ll hh).2.1 ∧
      (nibble low n fuel f ll hh).2.1 ≤ high ∧
      StepOk f (nibble low n fuel f ll hh).1 low high := by
  intro fuel
  induction fuel with
  | zero =>
    intro f ll hh _ _ _ _ _ _ _ hfuel
    omega
  | succ fuel ih =>
    intro f ll hh hp hN2 hN3 hb1 hb2 hb3 hb4 hfuel
    have hfhigh : p ≤ f high := hN3 high hb3 (le_refl high)
    obtain ⟨A1, A2, A3, A4⟩ := scanUp_spec f p n ll high hb4 (by omega) hfhigh
    obtain ⟨B1, B2, B3, B4⟩ :=
      scanDown_spec f p n hh low (by omega) (by omega) (le_of_eq hp)
    rw [nibble_succ, hp]
    by_cases hbr : scanDown f p n hh < scanUp f p n ll
    · rw [if_pos hbr]
      refine ⟨hp, ?_, ?_, hbr, ?_, ?_, ?_, ?_, StepOk_refl f low high⟩
      · intro k hk1 hk2
        by_cases hkll : k ≤ ll
        · exact hN2 k hk1 hkll
        · exact le_of_lt (A4 k (by omega) hk2)
      · intro k hk1 hk2
        by_cases hkhh : k < hh
        · exact le_of_lt (B4 k hk1 hkhh)
        · exact hN3 k (by omega) hk2
      · show low ≤ scanDown f p n hh
        omega
      · show scanDown f p n hh < high
        omega
      · show low + 1 < scanUp f p n ll
        omega
      · show scanUp f p n ll ≤ high
        omega
    · rw [if_neg hbr]
      have hcross : scanUp f p n ll ≤ scanDown f p n hh := by omega
      have hglow : fswap f (scanUp f p n ll) (scanDown f p n hh) low = p := by
        rw [fswap_other f (by omega) (by omega)]
        exact hp
      have hrec := ih (fswap f (scanUp f p n ll) (scanDown f p n hh))
        (scanUp f p n ll) (scanDown f p n hh) hglow ?hg2 ?hg3
        (by omega) hcross (by omega) (by omega) (by omega)
      case hg2 =>
        intro k hk1 hk2
        rcases Nat.eq_or_lt_of_le hk2 with he | hlt
        · rw [he, fswap_left]
          exact B3
        · rw [fswap_other f (by omega) (by omega)]
          by_cases hkll : k ≤ ll
          · exact hN2 k hk1 hkll
          · exact le_of_lt (A4 k (by omega) hlt)
      case hg3 =>
        intro k hk1 hk2
        rcases Nat.eq_or_lt_of_le hk1 with he | hlt
        · rw [← he, fswap_right]
          exact A3
        · rw [fswap_other f (by omega) (by omega)]
          by_cases hkhh : k < hh
          · exact le_of_lt (B4 k (by omega) hkhh)
          · exact hN3 k (by omega) hk2
      obtain ⟨R1, R2, R3, R4, R5, R6, R7, R8, R9⟩ := hrec
      refine ⟨R1, R2, R3, R4, R5, R6, R7, R8, ?_⟩
      refine StepOk_trans ?_ R9
      exact StepOk_fswap f (by omega) (by omega) (by omega) (by omega)

/-- A position whose value dominates everything before it and is dominated
by everything after it holds exactly the `m`-th order statistic. -/
lemma sorted_getD_eq_self (g : ℕ → ℕ) (n m : ℕ) (hm : m < n)
    (hlo : ∀ i, i < m → g i ≤ g m) (hhi : ∀ k, m < k → k < n → g m ≤ g k) :
    ((seg g 0 n).insertionSort (· ≤ ·)).getD m 0 = g m := by
  have hd : seg g 0 n = seg g 0 m ++ g m :: seg g (m + 1) (n - m - 1) := by
    have h1 := seg_split g 0 n m (le_of_lt hm)
    rw [Nat.zero_add] at h1
    obtain ⟨t, ht⟩ : ∃ t, n - m = t + 1 := ⟨n - m - 1, by omega⟩
    rw [h1, ht, seg_succ, show t = n - m - 1 by omega,
      show n - m - 1 + 1 - 1 = n - m - 1 by omega]
  have hperm : ((seg g 0 n).insertionSort (· ≤ ·)).Perm
      (((seg g 0 m).insertionSort (· ≤ ·)) ++
        g m :: ((seg g (m + 1) (n - m - 1)).insertionSort (· ≤ ·))) := by
    refine (List.perm_insertionSort _ _).trans ?_
    rw [hd]
    refine List.Perm.append (List.perm_insertionSort _ _).symm ?_
    exact List.Perm.cons _ (List.perm_insertionSort _ _).symm
  have hs1 : List.Sorted (· ≤ ·) ((seg g 0 n).insertionSort (· ≤ ·)) :=
    List.sorted_insertionSort _ _
  have hs2 : List.Sorted (· ≤ ·) (((seg g 0 m).insertionSort (· ≤ ·)) ++
      g m :: ((seg g (m + 1) (n - m - 1)).insertionSort (· ≤ ·))) := by
    refine List.pairwise_append.mpr ⟨List.sorted_insertionSort _ _, ?_, ?_⟩
    · refine List.pairwise_cons.mpr ⟨?_, ?_⟩
      · intro b hb
        rw [List.mem_insertionSort] at hb
        obtain ⟨k, hk1, hk2, rfl⟩ := mem_seg.mp hb
        exact hhi k (by omega) (by omega)
      · exact List.sorted_insertionSort _ _
    · intro a ha b hb
      rw [List.mem_insertionSort] at ha
      obtain ⟨i, hi1, hi2, rfl⟩ := mem_seg.mp ha
      have hale : g i ≤ g m := hlo i (by omega)
      rcases List.mem_cons.mp hb with rfl | hb2
      · exact hale
      · rw [List.mem_insertionSort] at hb2
        obtain ⟨k, hk1, hk2, rfl⟩ := mem_seg.mp hb2
        exact le_trans hale (hhi k (by omega) (by omega))
  have hAeq := List.eq_of_perm_of_sorted hperm hs1 hs2
  have hlenA : ((seg g 0 m).insertionSort (· ≤ ·)).length = m := by
    rw [List.length_insertionSort, seg_length]
  rw [hAeq, List.getD_eq_getElem?_getD, List.getElem?_append_right (by omega),
    hlenA, Nat.sub_self]
  simp

lemma Fixed_transfer {f g : ℕ → ℕ} {median n low high : ℕ}
    (hst : StepOk f g low high) (hside : high < median ∨ median < low)
    (hhn : high < n) (hfix : Fixed f median n) : Fixed g median n := by
  have hgm : g median = f median := hst.1 median (by omega)
  obtain ⟨F1, F2⟩ := hfix
  constructor
  · intro i hi
    by_cases hw : low ≤ i ∧ i ≤ high
    · obtain ⟨i', h1, h2, h3⟩ := StepOk_values hst hw.1 hw.2
      rw [h3, hgm]
      exact F1 i' (by omega)
    · rw [hst.1 i (by omega), hgm]
      exact F1 i hi
  · intro k hk1 hk2
    by_cases hw : low ≤ k ∧ k ≤ high
    · obtain ⟨k', h1, h2, h3⟩ := StepOk_values hst hw.1 hw.2
      rw [h3, hgm]
      exact F2 k' (by omega) (by omega)
    · rw [hst.1 k (by omega), hgm]
      exact F2 k hk1 hk2

lemma StepOk_full_perm {f g : ℕ → ℕ} {low high n : ℕ}
    (hst : StepOk f g low high) (hlh : low ≤ high) (hhn : high < n) :
    (seg g 0 n).Perm (seg f 0 n) := by
  have h2 := (StepOk_mono hst (Nat.zero_le low) hlh (by omega : high ≤ n - 1)).2
  rw [show n - 1 + 1 - 0 = n by omega] at h2
  exact h2

lemma sortedSeg_eq_of_perm {g f : ℕ → ℕ} {n : ℕ}
    (h : (seg g 0 n).Perm (seg f 0 n)) :
    (seg g 0 n).insertionSort (· ≤ ·) = (seg f 0 n).insertionSort (· ≤ ·) := by
  refine List.eq_of_perm_of_sorted ?_ (List.sorted_insertionSort _ _)
    (List.sorted_insertionSort _ _)
  exact ((List.perm_insertionSort _ _).trans h).trans (List.perm_insertionSort _ _).symm

lemma qsLoop_zero (median scanFuel : ℕ) (f : ℕ → ℕ) (low high : ℕ) :
    qsLoop median scanFuel 0 f low high = f median := rfl

lemma qsLoop_succ (median scanFuel fuel : ℕ) (f : ℕ → ℕ) (low high : ℕ) :
    qsLoop median scanFuel (fuel + 1) f low high =
      if high ≤ low then f median
      else if high = low + 1 then
        if f high < f low then fswap f low high median else f median
      else
        qsLoop median scanFuel fuel
          (fswap (nibble low scanFuel scanFuel (med3 f low high) (low + 1) high).1 low
            (nibble low scanFuel scanFuel (med3 f low high) (low + 1) high).2.2)
          (if (nibble low scanFuel scanFuel (med3 f low high) (low + 1) high).2.2 ≤ median
            then (nibble low scanFuel scanFuel (med3 f low high) (low + 1) high).2.1
            else low)
          (if median ≤ (nibble low scanFuel scanFuel (med3 f low high) (low + 1) high).2.2
            then (nibble low scanFuel scanFuel (med3 f low high) (low + 1) high).2.2 - 1
            else high) := rfl

lemma qsLoop_stop {median scanFuel : ℕ} {f : ℕ → ℕ} {low high : ℕ}
    (h : high ≤ low) :
    ∀ fuel, qsLoop median scanFuel fuel f low high = f median := by
  intro fuel
  cases fuel with
  | zero => rfl
  | succ fuel => rw [qsLoop_succ, if_pos h]

/-- Once the median position is already final and lies outside the active
window, the remaining iterations never touch it. -/
lemma qsLoop_outside (median n : ℕ) :
    ∀ fuel (f : ℕ → ℕ) (low high : ℕ),
      high < n → (high < median ∨ median < low) → Fixed f median n →
      qsLoop median n fuel f low high = f median := by
  intro fuel
  induction fuel with
  | zero =>
    intro f low high _ _ _
    rfl
  | succ fuel ih =>
    intro f low high hhn hside hfix
    rw [qsLoop_succ]
    by_cases hstop : high ≤ low
    · rw [if_pos hstop]
    · rw [if_neg hstop]
      by_cases htwo : high = low + 1
      · rw [if_pos htwo]
        by_cases hsw : f high < f low
        · rw [if_pos hsw]
          exact fswap_other f (by omega) (by omega)
        · rw [if_neg hsw]
      · rw [if_neg htwo]
        have h5 : low + 2 ≤ high := by omega
        obtain ⟨hm1, hm2, hmst⟩ := med3_facts f low high h5
        have hn2 : ∀ k, low < k → k ≤ low + 1 →
            med3 f low high k ≤ med3 f low high low := by
          intro k hk1 hk2
          rw [show k = low + 1 by omega]
          exact hm1
        have hn3 : ∀ k, high ≤ k → k ≤ high →
            med3 f low high low ≤ med3 f low high k := by
          intro k hk1 hk2
          rw [show k = high by omega]
          exact hm2
        obtain ⟨R1, R2, R3, R4, R5, R6, R7, R8, R9⟩ :=
          nibble_spec low high n (med3 f low high low) h5 hhn n (med3 f low high)
            (low + 1) high rfl hn2 hn3 (le_refl _) (by omega) (le_refl _)
            (by omega) (by omega)
        set r := nibble low n n (med3 f low high) (low + 1) high with hr
        have hst6 : StepOk f (fswap r.1 low r.2.2) low high :=
          StepOk_trans (StepOk_trans hmst R9)
            (StepOk_fswap r.1 (le_refl low) (by omega) (by omega) (by omega))
        have hfix6 : Fixed (fswap r.1 low r.2.2) median n :=
          Fixed_transfer hst6 hside hhn hfix
        have hmed6 : fswap r.1 low r.2.2 median = f median :=
          hst6.1 median (by omega)
        rcases hside with hs1 | hs1
        · rw [if_pos (by omega : r.2.2 ≤ median),
            if_neg (by omega : ¬ median ≤ r.2.2)]
          rw [ih _ _ _ hhn (Or.inl (by omega)) hfix6, hmed6]
        · rw [if_neg (by omega : ¬ r.2.2 ≤ median),
            if_pos (by omega : median ≤ r.2.2)]
          rw [ih _ _ _ (by omega) (Or.inr (by omega)) hfix6, hmed6]

/-- Value of the two-element terminal case of the Quickselect loop. -/
lemma two_case_value {f g : ℕ → ℕ} {low high median n : ℕ}
    (hst : StepOk f g low high) (hgl : g low ≤ g high)
    (hB : ∀ i j, i < low → low ≤ j → j < n → f i ≤ f j)
    (hC : ∀ j k, j ≤ high → high < k → k < n → f j ≤ f k)
    (htwo : high = low + 1) (hlm : low ≤ median) (hmh : median ≤ high)
    (hhn : high < n) :
    g median = ((seg f 0 n).insertionSort (· ≤ ·)).getD median 0 := by
  have hB6 := lowBound_transfer hst hhn hB
  have hC6 := highBound_transfer hst hhn hC
  have hperm := StepOk_full_perm hst (by omega) hhn
  have hlo : ∀ i, i < median → g i ≤ g median := by
    intro i hi
    rcases Nat.lt_or_ge i low with hil | hig
    · exact hB6 i median hil (by omega) (by omega)
    · have h1 : i = low := by omega
      have h2 : median = high := by omega
      rw [h1, h2]
      exact hgl
  have hhi : ∀ k, median < k → k < n → g median ≤ g k := by
    intro k h1 h2
    rcases Nat.lt_or_ge high k with hk | hk
    · exact hC6 median k (by omega) hk h2
    · have h3 : k = high := by omega
      have h4 : median = low := by omega
      rw [h3, h4]
      exact hgl
  rw [← sorted_getD_eq_self g n median (by omega) hlo hhi,
    sortedSeg_eq_of_perm hperm]

/-- Main loop invariant of Quickselect: if positions left of the window are
dominated by the window and the window is dominated by positions right of
it, and the median index lies in the window, the loop returns the median
order statistic. -/
lemma qsLoop_correct (median n : ℕ) :
    ∀ fuel (f : ℕ → ℕ) (low high : ℕ),
      (∀ i j, i < low → low ≤ j → j < n → f i ≤ f j) →
      (∀ j k, j ≤ high → high < k → k < n → f j ≤ f k) →
      low ≤ median → median ≤ high → high < n → high - low < fuel →
      qsLoop median n fuel f low high =
        ((seg f 0 n).insertionSort (· ≤ ·)).getD median 0 := by
  intro fuel
  induction fuel with
  | zero =>
    intro f low high _ _ _ _ _ hfuel
    omega
  | succ fuel ih =>
    intro f low high hB hC hlm hmh hhn hfuel
    rw [qsLoop_succ]
    by_cases hstop : high ≤ low
    · rw [if_pos hstop]
      have hlo : ∀ i, i < median → f i ≤ f median := by
        intro i hi
        exact hB i median (by omega) (by omega) (by omega)
      have hhi : ∀ k, median < k → k < n → f median ≤ f k := by
        intro k h1 h2
        exact hC median k (by omega) (by omega) h2
      exact (sorted_getD_eq_self f n median (by omega) hlo hhi).symm
    · rw [if_neg hstop]
      by_cases htwo : high = low + 1
      · rw [if_pos htwo]
        by_cases hsw : f high < f low
        · rw [if_pos hsw]
          refine two_case_value
            (StepOk_fswap f (le_refl _) (by omega) (by omega) (le_refl _))
            ?_ hB hC htwo hlm hmh hhn
          rw [fswap_left, fswap_right]
          omega
        · rw [if_neg hsw]
          exact two_case_value (StepOk_refl f low high) (by omega) hB hC htwo
            hlm hmh hhn
      · rw [if_neg htwo]
        have h5 : low + 2 ≤ high := by omega
        obtain ⟨hm1, hm2, hmst⟩ := med3_facts f low high h5
        have hn2 : ∀ k, low < k → k ≤ low + 1 →
            med3 f low high k ≤ med3 f low high low := by
          intro k hk1 hk2
          rw [show k = low + 1 by omega]
          exact hm1
        have hn3 : ∀ k, high ≤ k → k ≤ high →
            med3 f low high low ≤ med3 f low high k := by
          intro k hk1 hk2
          rw [show k = high by omega]
          exact hm2
        obtain ⟨R1, R2, R3, R4, R5, R6, R7, R8, R9⟩ :=
          nibble_spec low high n (med3 f low high low) h5 hhn n (med3 f low high)
            (low + 1) high rfl hn2 hn3 (le_refl _) (by omega) (le_refl _)
            (by omega) (by omega)
        set r := nibble low n n (med3 f low high) (low + 1) high with hr
        set p := med3 f low high low with hp
        have hst6 : StepOk f (fswap r.1 low r.2.2) low high :=
          StepOk_trans (StepOk_trans hmst R9)
            (StepOk_fswap r.1 (le_refl low) (by omega) (by omega) (by omega))
        set g6 := fswap r.1 low r.2.2 with hg6
        have hB6 := lowBound_transfer hst6 hhn hB
        have hC6 := highBound_transfer hst6 hhn hC
        have hperm := StepOk_full_perm hst6 (by omega) hhn
        have Q1 : g6 r.2.2 = p := by
          rw [hg6, fswap_right]
          exact R1
        have Q2 : ∀ k, low ≤ k → k < r.2.2 → g6 k ≤ p := by
          intro k hk1 hk2
          rcases Nat.eq_or_lt_of_le hk1 with he | hlt
          · rw [← he, hg6, fswap_left]
            exact R2 r.2.2 (by omega) R4
          · rw [hg6, fswap_other r.1 (by omega) (by omega)]
            exact R2 k (by omega) (by omega)
        have Q3 : ∀ k, r.2.2 < k → k ≤ high → p ≤ g6 k := by
          intro k hk1 hk2
          rw [hg6, fswap_other r.1 (by omega) (by omega)]
          exact R3 k hk1 hk2
        rcases Nat.lt_trichotomy median r.2.2 with hcase | hcase | hcase
        · -- median strictly left of the pivot position: recurse left
          rw [if_neg (by omega : ¬ r.2.2 ≤ median),
            if_pos (by omega : median ≤ r.2.2)]
          have hC' : ∀ j k, j ≤ r.2.2 - 1 → r.2.2 - 1 < k → k < n →
              g6 j ≤ g6 k := by
            intro j k hj hk hkn
            rcases Nat.lt_or_ge high k with hk2 | hk2
            · exact hC6 j k (by omega) hk2 hkn
            · have hkp : p ≤ g6 k := by
                rcases Nat.eq_or_lt_of_le (show r.2.2 ≤ k by omega) with he | hlt
                · rw [← he, Q1]
                · exact Q3 k hlt hk2
              rcases Nat.lt_or_ge j low with hjl | hjl
              · exact hB6 j k hjl (by omega) hkn
              · exact le_trans (Q2 j hjl (by omega)) hkp
          rw [ih g6 low (r.2.2 - 1) hB6 hC' (by omega) (by omega) (by omega)
            (by omega), sortedSeg_eq_of_perm hperm]
        · -- median is exactly the pivot position: done
          rw [if_pos (by omega : r.2.2 ≤ median),
            if_pos (by omega : median ≤ r.2.2)]
          rw [qsLoop_stop (by omega : r.2.2 - 1 ≤ r.2.1) fuel]
          subst hcase
          have hlo : ∀ i, i < r.2.2 → g6 i ≤ g6 r.2.2 := by
            intro i hi
            rw [Q1]
            rcases Nat.lt_or_ge i low with hil | hil
            · have := hB6 i r.2.2 hil (by omega) (by omega)
              rwa [Q1] at this
            · exact Q2 i hil hi
          have hhi : ∀ k, r.2.2 < k → k < n → g6 r.2.2 ≤ g6 k := by
            intro k h1 h2
            rcases Nat.lt_or_ge high k with h3 | h3
            · exact hC6 r.2.2 k (by omega) h3 h2
            · rw [Q1]
              exact Q3 k h1 h3
          rw [← sorted_getD_eq_self g6 n r.2.2 (by omega) hlo hhi,
            sortedSeg_eq_of_perm hperm]
        · -- median strictly right of the pivot position
          rw [if_pos (by omega : r.2.2 ≤ median),
            if_neg (by omega : ¬ median ≤ r.2.2)]
          by_cases hgap : median < r.2.1
          · -- median falls between the crossed pointers: its value is the
            -- pivot and it is already in final position
            have hval : g6 median = p := by
              have hle : g6 median ≤ p := by
                rw [hg6, fswap_other r.1 (by omega) (by omega)]
                exact R2 median (by omega) hgap
              have hge : p ≤ g6 median := Q3 median hcase (by omega)
              omega
            have hfix : Fixed g6 median n := by
              constructor
              · intro i hi
                rw [hval]
                rcases Nat.lt_or_ge i low with hil | hil
                · have := hB6 i median hil (by omega) (by omega)
                  rwa [hval] at this
                · rcases Nat.lt_or_ge i r.2.2 with h7 | h7
                  · exact Q2 i hil h7
                  · rcases Nat.eq_or_lt_of_le h7 with he | h8
                    · rw [← he, Q1]
                    · rw [hg6, fswap_other r.1 (by omega) (by omega)]
                      exact R2 i (by omega) (by omega)
              · intro k h1 h2
                rw [hval]
                rcases Nat.lt_or_ge high k with h3 | h3
                · have := hC6 median k (by omega) h3 h2
                  rwa [hval] at this
                · exact Q3 k (by omega) h3
            rw [qsLoop_outside median n fuel g6 r.2.1 high hhn (Or.inr hgap) hfix]
            rw [← sorted_getD_eq_self g6 n median (by omega) hfix.1 hfix.2,
              sortedSeg_eq_of_perm hperm]
          · -- median inside the right part: recurse right
            have hB' : ∀ i j, i < r.2.1 → r.2.1 ≤ j → j < n → g6 i ≤ g6 j := by
              intro i j h1 h2 h3
              rcases Nat.lt_or_ge high j with h4 | h4
              · exact hC6 i j (by omega) h4 h3
              · have hj : p ≤ g6 j := Q3 j (by omega) h4
                rcases Nat.lt_or_ge i low with h5' | h5'
                · exact hB6 i j h5' (by omega) h3
                · have hi : g6 i ≤ p := by
                    rcases Nat.lt_or_ge i r.2.2 with h6 | h6
                    · exact Q2 i h5' h6
                    · rcases Nat.eq_or_lt_of_le h6 with he | h7
                      · rw [← he, Q1]
                      · rw [hg6, fswap_other r.1 (by omega) (by omega)]
                        exact R2 i (by omega) h1
                  omega
            rw [ih g6 r.2.1 high hB' hC6 (by omega) hmh hhn (by omega),
              sortedSeg_eq_of_perm hperm]

lemma seg_getD (l : List ℕ) : seg (fun i => l.getD i 0) 0 l.length = l := by
  apply List.ext_getElem
  · rw [seg_length]
  · intro i h1 h2
    simp only [seg, List.getElem_map, List.getElem_range']
    simp only [Nat.zero_add, Nat.one_mul]
    rw [List.getD_eq_getElem?_getD, List.getElem?_eq_getElem h2]
    rfl

/-- Correctness of the embedded `__find_median_quick_select`: on any
nonempty list it returns the value at index `(n-1)/2` of the sorted list. -/
lemma find_median_correct (l : List ℕ) (h : 1 ≤ l.length) :
    find_median_quick_select l = medianOfList l := by
  unfold find_median_quick_select medianOfList
  rw [qsLoop_correct ((l.length - 1) / 2) l.length l.length (fun i => l.getD i 0)
    0 (l.length - 1)
    (by intro i j hi _ _; exact absurd hi (by omega))
    (by intro j k _ h2 h3; exact absurd h2 (by omega))
    (by omega) (by omega) (by omega) (by omega)]
  rw [seg_getD]

/-- C3: for every array of length n ≥ 1, `__find_median_quick_select`
returns the median of the array's original contents: the value that would
occupy index `(n-1)/2` if the original multiset were sorted in
nondecreasing order. -/
theorem C3_quickselect_returns_median (l : List ℕ) (h : 1 ≤ l.length) :
    find_median_quick_select l = medianOfList l :=
  find_median_correct l h

theorem C3_quickselect_returns_median_witness :
    1 ≤ ([5, 1, 4] : List ℕ).length ∧
      find_median_quick_select [5, 1, 4] = medianOfList [5, 1, 4] ∧
      medianOfList [5, 1, 4] = 4 :=
  ⟨by decide, C3_quickselect_returns_median [5, 1, 4] (by decide), by decide⟩

lemma status_foldl_all_ok (l : List ucs_status_t) (acc : ucs_status_t)
    (h : ∀ s ∈ l, s = UCS_OK) :
    l.foldl (fun a s => if s ≠ UCS_OK then s else a) acc = acc := by
  induction l generalizing acc with
  | nil => rfl
  | cons x t iht =>
    have hx : x = UCS_OK := h x (List.mem_cons_self _ _)
    simp only [List.foldl_cons, hx]
    rw [if_neg (by simp)]
    exact iht acc (fun s hs => h s (List.mem_cons_of_mem _ hs))

lemma status_foldl_ok_iff (l : List ucs_status_t) (acc : ucs_status_t) :
    l.foldl (fun a s => if s ≠ UCS_OK then s else a) acc = UCS_OK ↔
      acc = UCS_OK ∧ ∀ s ∈ l, s = UCS_OK := by
  induction l generalizing acc with
  | nil => simp
  | cons x t iht =>
    simp only [List.foldl_cons]
    by_cases hx : x = UCS_OK
    · rw [hx, if_neg (by simp), iht]
      constructor
      · rintro ⟨h1, h2⟩
        exact ⟨h1, by
          intro s hs
          rcases List.mem_cons.mp hs with rfl | hs2
          · rfl
          · exact h2 s hs2⟩
      · rintro ⟨h1, h2⟩
        exact ⟨h1, fun s hs => h2 s (List.mem_cons_of_mem _ hs)⟩
    · rw [if_pos hx, iht]
      constructor
      · rintro ⟨h1, _⟩
        exact absurd h1 hx
      · rintro ⟨_, h2⟩
        exact absurd (h2 x (List.mem_cons_self _ _)) hx

lemma status_foldl_last (l1 l2 : List ucs_status_t) (e acc : ucs_status_t)
    (he : e ≠ UCS_OK) (h2 : ∀ s ∈ l2, s = UCS_OK) :
    (l1 ++ e :: l2).foldl (fun a s => if s ≠ UCS_OK then s else a) acc = e := by
  rw [List.foldl_append, List.foldl_cons, if_pos he]
  exact status_foldl_all_ok l2 e h2

/-- C2: `ucx_perf_calc_result` copies `current.iters` and `current.bytes`
into the result, sets `latency.typical` to the median of the full timing
ring divided by ticks-per-second and by 2 for PINGPONG (1 otherwise), and
reports `bandwidth.typical` and `msgrate.typical` as 0. -/
theorem C2_calc_result (tfs : ℚ → ℕ) (perf : ucx_perf_context)
    (h : 1 ≤ perf.timing_queue.length) :
    (ucx_perf_calc_result tfs perf).iters = perf.current.iters ∧
    (ucx_perf_calc_result tfs perf).bytes = perf.current.bytes ∧
    (ucx_perf_calc_result tfs perf).latency.typical =
      (medianOfList perf.timing_queue : ℚ) / ((tfs 1 : ℕ) : ℚ) /
        (if perf.params.test_type = ucx_perf_test_type.PINGPONG then 2 else 1) ∧
    (ucx_perf_calc_result tfs perf).bandwidth.typical = 0 ∧
    (ucx_perf_calc_result tfs perf).msgrate.typical = 0 := by
  refine ⟨rfl, rfl, ?_, rfl, rfl⟩
  show (find_median_quick_select perf.timing_queue : ℚ) / ((tfs 1 : ℕ) : ℚ) /
      (if perf.params.test_type = ucx_perf_test_type.PINGPONG then 2 else 1) = _
  rw [find_median_correct perf.timing_queue h]

theorem C2_calc_result_witness :
    (ucx_perf_calc_result (fun _ => 1000)
      { params :=
          { command := ucx_perf_cmd.TAG
            test_type := ucx_perf_test_type.PINGPONG
            msg_size_list := [8]
            iov_stride := 0
            max_outstanding := 1
            warmup_iter := 0
            max_iter := 0
            max_time := 0
            report_interval := 0 }
        start_time := 0
        prev_time := 0
        end_time := 0
        max_iter := 0
        report_interval := 0
        current := ⟨0, 0, 0, 7⟩
        prev := ⟨0, 0, 0, 0⟩
        timing_queue_head := 0
        timing_queue := [3, 1, 2]
        offset := 0 }).latency.typical =
      (medianOfList [3, 1, 2] : ℚ) / ((1000 : ℕ) : ℚ) /
        (if ucx_perf_test_type.PINGPONG = ucx_perf_test_type.PINGPONG
         then 2 else 1) :=
  (C2_calc_result (fun _ => 1000) _ (by decide)).2.2.1

/-- C7: after `ucx_perf_test_reset` all current counters are zero, every
timing-ring slot and the ring head are zero, `end_time` is `start_time`
plus the converted `max_time` (UINT64_MAX when `max_time` is 0.0), and
`max_iter` is `params.max_iter` (UINT64_MAX when 0). -/
theorem C7_reset (TQS : ℕ) (tfs : ℚ → ℕ) (now : ℕ) (p : ucx_perf_params) :
    (ucx_perf_test_reset TQS tfs now p).current = ⟨0, 0, 0, 0⟩ ∧
    (ucx_perf_test_reset TQS tfs now p).timing_queue_head = 0 ∧
    (∀ t ∈ (ucx_perf_test_reset TQS tfs now p).timing_queue, t = 0) ∧
    (ucx_perf_test_reset TQS tfs now p).timing_queue.length = TQS ∧
    (ucx_perf_test_reset TQS tfs now p).start_time = now ∧
    (ucx_perf_test_reset TQS tfs now p).end_time =
      (if p.max_time = 0 then UINT64_MAX
       else (ucx_perf_test_reset TQS tfs now p).start_time + tfs p.max_time) ∧
    (ucx_perf_test_reset TQS tfs now p).max_iter =
      (if p.max_iter = 0 then UINT64_MAX else p.max_iter) := by
  refine ⟨rfl, rfl, ?_, ?_, rfl, ?_, rfl⟩
  · intro t ht
    exact List.eq_of_mem_replicate ht
  · exact List.length_replicate _ _
  · show (if p.max_time = 0 then UINT64_MAX else tfs p.max_time + now) = _
    by_cases h : p.max_time = 0
    · rw [if_pos h, if_pos h]
    · rw [if_neg h, if_neg h]
      show tfs p.max_time + now = now + tfs p.max_time
      omega

/-- C8: `ucx_perf_set_warmup` clamps the iteration bound to
`min(warmup_iter, max_iter/10)` and disables the report interval (the -1
sentinel, UINT64_MAX as a uint64); and in `ucx_perf_run` with a positive
`warmup_iter` and a successful warmup run, a rendezvous barrier and a
context reset are executed between the warmup run and the measured run. -/
theorem C8_warmup (perf : ucx_perf_context) (params : ucx_perf_params)
    (rs : ucs_status_t) (hw : 0 < params.warmup_iter) :
    (ucx_perf_set_warmup perf params).max_iter =
      min params.warmup_iter (params.max_iter / 10) ∧
    (ucx_perf_set_warmup perf params).report_interval = UINT64_MAX ∧
    ucx_perf_run_trace params.warmup_iter UCS_OK rs =
      [.reset, .setup, .set_warmup, .run, .barrier, .reset, .run, .barrier] ++
        (if rs = UCS_OK then [.calc_result, .report] else []) ++
        [.cleanup] := by
  refine ⟨rfl, rfl, ?_⟩
  unfold ucx_perf_run_trace ucx_perf_run_measured_tail
  rw [if_pos hw, if_pos rfl]
  simp

theorem C8_warmup_witness :
    (ucx_perf_set_warmup
      { params :=
          { command := ucx_perf_cmd.TAG
            test_type := ucx_perf_test_type.PINGPONG
            msg_size_list := [8]
            iov_stride := 0
            max_outstanding := 1
            warmup_iter := 5
            max_iter := 100
            max_time := 0
            report_interval := 0 }
        start_time := 0
        prev_time := 0
        end_time := 0
        max_iter := 100
        report_interval := 17
        current := ⟨0, 0, 0, 0⟩
        prev := ⟨0, 0, 0, 0⟩
        timing_queue_head := 0
        timing_queue := []
        offset := 0 }
      { command := ucx_perf_cmd.TAG
        test_type := ucx_perf_test_type.PINGPONG
        msg_size_list := [8]
        iov_stride := 0
        max_outstanding := 1
        warmup_iter := 5
        max_iter := 100
        max_time := 0
        report_interval := 0 }).max_iter = min 5 (100 / 10) ∧
    ucx_perf_run_trace 5 UCS_OK UCS_OK =
      [.reset, .setup, .set_warmup, .run, .barrier, .reset, .run, .barrier] ++
        (if (UCS_OK : ucs_status_t) = UCS_OK
         then [ucx_perf_event.calc_result, .report] else []) ++ [.cleanup] := by
  have h := C8_warmup
    { params :=
        { command := ucx_perf_cmd.TAG
          test_type := ucx_perf_test_type.PINGPONG
          msg_size_list := [8]
          iov_stride := 0
          max_outstanding := 1
          warmup_iter := 5
          max_iter := 100
          max_time := 0
          report_interval := 0 }
      start_time := 0
      prev_time := 0
      end_time := 0
      max_iter := 100
      report_interval := 17
      current := ⟨0, 0, 0, 0⟩
      prev := ⟨0, 0, 0, 0⟩
      timing_queue_head := 0
      timing_queue := []
      offset := 0 }
    { command := ucx_perf_cmd.TAG
      test_type := ucx_perf_test_type.PINGPONG
      msg_size_list := [8]
      iov_stride := 0
      max_outstanding := 1
      warmup_iter := 5
      max_iter := 100
      max_time := 0
      report_interval := 0 }
    UCS_OK (by decide)
  exact ⟨h.1, h.2.2⟩

/-- C4: the collective status exchange after messaging-API endpoint setup
returns UCS_OK iff every contributed status (the local one included) is
UCS_OK; when exactly one peer contributes a non-OK status, the exchange —
the same function of the shared posted vector at every peer — returns
that same status; and a non-OK outcome makes
`ucp_perf_test_setup_endpoints` destroy its endpoints. -/
theorem C4_collective_status (posted l1 l2 : List ucs_status_t)
    (e : ucs_status_t) :
    (ucp_perf_test_exchange_status posted = UCS_OK ↔
      ∀ s ∈ posted, s = UCS_OK) ∧
    (e ≠ UCS_OK → (∀ s ∈ l1, s = UCS_OK) → (∀ s ∈ l2, s = UCS_OK) →
      ucp_perf_test_exchange_status (l1 ++ e :: l2) = e) ∧
    ((ucp_perf_test_setup_endpoints_finish posted).1 =
      ucp_perf_test_exchange_status posted) ∧
    ((ucp_perf_test_setup_endpoints_finish posted).2 = true ↔
      ucp_perf_test_exchange_status posted ≠ UCS_OK) := by
  refine ⟨?_, ?_, ?_, ?_⟩
  · rw [ucp_perf_test_exchange_status, status_foldl_ok_iff]
    simp
  · intro he h1 h2
    exact status_foldl_last l1 l2 e UCS_OK he h2
  · unfold ucp_perf_test_setup_endpoints_finish
    by_cases h : ucp_perf_test_exchange_status posted ≠ UCS_OK
    · rw [if_pos h]
    · rw [if_neg h]
  · unfold ucp_perf_test_setup_endpoints_finish
    by_cases h : ucp_perf_test_exchange_status posted ≠ UCS_OK
    · rw [if_pos h]
      simpa using h
    · rw [if_neg h]
      simpa using h

theorem C4_collective_status_witness :
    ucp_perf_test_exchange_status
      ([UCS_OK] ++ UCS_ERR_NO_MEMORY :: [UCS_OK]) = UCS_ERR_NO_MEMORY :=
  (C4_collective_status [] [UCS_OK] [UCS_OK] UCS_ERR_NO_MEMORY).2.1
    (by decide) (by decide) (by decide)

/-- C6 counterexample: with per-thread statuses [NO_MEMORY, IO_ERROR] the
aggregation loop of `ucx_perf_thread_spawn` returns IO_ERROR, the LAST
non-OK status, while the claimed first-error reading returns NO_MEMORY. -/
theorem C6_counterexample :
    ucx_perf_thread_spawn_status [UCS_ERR_NO_MEMORY, UCS_ERR_IO_ERROR] =
      UCS_ERR_IO_ERROR ∧
    first_error_status [UCS_ERR_NO_MEMORY, UCS_ERR_IO_ERROR] =
      UCS_ERR_NO_MEMORY ∧
    UCS_ERR_IO_ERROR ≠ UCS_ERR_NO_MEMORY := by
  refine ⟨rfl, rfl, by decide⟩

/-- C6 amended: when one or more threads finish with a non-OK status, a
non-OK status is surfaced to the caller, and the status returned is the
LAST such error (the non-OK status of the highest-indexed failing
thread). -/
theorem C6_last_error_wins (l1 l2 : List ucs_status_t) (e : ucs_status_t)
    (he : e ≠ UCS_OK) (h2 : ∀ s ∈ l2, s = UCS_OK) :
    ucx_perf_thread_spawn_status (l1 ++ e :: l2) = e ∧
    ucx_perf_thread_spawn_status (l1 ++ e :: l2) ≠ UCS_OK := by
  have h := status_foldl_last l1 l2 e UCS_OK he h2
  constructor
  · exact h
  · rw [ucx_perf_thread_spawn_status, h]
    exact he

theorem C6_last_error_wins_witness :
    ucx_perf_thread_spawn_status
      ([UCS_ERR_NO_MEMORY] ++ UCS_ERR_IO_ERROR :: []) = UCS_ERR_IO_ERROR ∧
    ucx_perf_thread_spawn_status
      ([UCS_ERR_NO_MEMORY] ++ UCS_ERR_IO_ERROR :: []) ≠ UCS_OK :=
  C6_last_error_wins [UCS_ERR_NO_MEMORY] [] UCS_ERR_IO_ERROR
    (by decide) (by decide)

lemma check_params_ok (p : ucx_perf_params)
    (hsz : 1 ≤ ucx_perf_get_message_size p)
    (hout : 1 ≤ p.max_outstanding)
    (hstr : p.iov_stride = 0 ∨ ∀ m ∈ p.msg_size_list, m ≤ p.iov_stride) :
    ucx_perf_test_check_params p = UCS_OK := by
  unfold ucx_perf_test_check_params
  rw [if_neg (by omega), if_neg (by omega), if_neg ?hcond]
  case hcond =>
    rintro ⟨hs0, hany⟩
    rcases hstr with h | h
    · exact hs0 h
    · rw [List.any_eq_true] at hany
      obtain ⟨m, hm, hlt⟩ := hany
      have h2 := h m hm
      simp only [decide_eq_true_eq] at hlt
      omega

/-- C5 (code bug, evaluated at the failing input): for the atomic command
ADD the parameter check `ucp_perf_test_check_params` accepts total message
size 4 on the 32-bit atomic path and 8 on the 64-bit path, and rejects
size 5 with UCS_ERR_INVALID_PARAM, exactly as the claim states; but total
size 2^32+4, which the claim requires to be rejected, is truncated into
the int-width `ucs_status_t` local that receives it (libperf.c:694,
`ucs_status_t status, message_size;`) and is accepted as a 32-bit atomic.
The same quantity is correctly typed `size_t` in
`uct_perf_test_check_capabilities`, and the rejection branch's own
diagnostic reads "Atomic size should be either 32 or 64 bit": the enum
typing is a slip and the claim states the intent. -/
theorem C5_atomic_size_check_truncation :
    ucp_perf_test_check_params
      { command := ucx_perf_cmd.ADD
        test_type := ucx_perf_test_type.STREAM_UNI
        msg_size_list := [4]
        iov_stride := 0
        max_outstanding := 1
        warmup_iter := 0
        max_iter := 0
        max_time := 0
        report_interval := 0 } = .ok .UCP_FEATURE_AMO32 ∧
    ucp_perf_test_check_params
      { command := ucx_perf_cmd.ADD
        test_type := ucx_perf_test_type.STREAM_UNI
        msg_size_list := [8]
        iov_stride := 0
        max_outstanding := 1
        warmup_iter := 0
        max_iter := 0
        max_time := 0
        report_interval := 0 } = .ok .UCP_FEATURE_AMO64 ∧
    ucp_perf_test_check_params
      { command := ucx_perf_cmd.ADD
        test_type := ucx_perf_test_type.STREAM_UNI
        msg_size_list := [5]
        iov_stride := 0
        max_outstanding := 1
        warmup_iter := 0
        max_iter := 0
        max_time := 0
        report_interval := 0 } = .error UCS_ERR_INVALID_PARAM ∧
    ucp_perf_test_check_params
      { command := ucx_perf_cmd.ADD
        test_type := ucx_perf_test_type.STREAM_UNI
        msg_size_list := [2 ^ 32 + 4]
        iov_stride := 0
        max_outstanding := 1
        warmup_iter := 0
        max_iter := 0
        max_time := 0
        report_interval := 0 } = .ok .UCP_FEATURE_AMO32 :=
  ⟨rfl, rfl, rfl, rfl⟩

lemma device_select_inv (ctx : AtomicCtx) :
    ∀ (l : List ℕ) (st : Finset ℕ × Option ℕ × ℚ × ℕ),
      (∀ i ∈ l, i < ctx.num_tls) →
      (∀ b, st.2.1 = some b → b ∈ st.1 ∧ b < ctx.num_tls) →
      ∀ b, (l.foldl (device_select_step ctx) st).2.1 = some b →
        b ∈ (l.foldl (device_select_step ctx) st).1 ∧ b < ctx.num_tls := by
  intro l
  induction l with
  | nil =>
    intro st _ hst b hb
    exact hst b hb
  | cons x t iht =>
    intro st hl hst b hb
    rw [List.foldl_cons] at hb ⊢
    refine iht (device_select_step ctx st x) (fun i hi => hl i (List.mem_cons_of_mem _ hi)) ?_ b hb
    intro b' hb'
    unfold device_select_step at hb' ⊢
    by_cases h1 : ctx.md_cap_flags (ctx.md_index x) &&& UCT_MD_FLAG_REG = 0 ∨
        ucs_test_all_flags (ctx.iface_cap_flags x)
          (ctx.atomic_iface_flags ||| UCT_IFACE_FLAG_ATOMIC_DEVICE) = false
    · rw [if_pos h1] at hb' ⊢
      exact hst b' hb'
    · rw [if_neg h1] at hb' ⊢
      by_cases h2 : st.2.2.1 < ctx.score x ∨
          (ctx.score x = st.2.2.1 ∧ st.2.2.2 < ctx.priority x)
      · rw [if_pos h2] at hb' ⊢
        simp only at hb'
        obtain rfl : x = b' := by
          simpa using hb'
        exact ⟨Finset.mem_insert_self _ _, hl x (List.mem_cons_self _ _)⟩
      · rw [if_neg h2] at hb' ⊢
        obtain ⟨hm, hlt⟩ := hst b' hb'
        exact ⟨Finset.mem_insert_of_mem hm, hlt⟩

/-- C9 counterexample: atomics are requested (AMO32), CPU policy, one
resource without CPU-atomic capability: the mask is empty although the
feature set includes atomics. -/
theorem C9_counterexample :
    ucp_worker_init_atomic_tls
      { num_tls := 1
        feature_amo32 := true
        feature_amo64 := false
        atomic_mode := ucp_atomic_mode.CPU
        iface_cap_flags := fun _ => 0
        md_cap_flags := fun _ => 0
        md_index := fun _ => 0
        dev_name := fun _ => 0
        priority := fun _ => 0
        score := fun _ => 0
        atomic_iface_flags := 0 } = ∅ ∧
    ({ num_tls := 1
       feature_amo32 := true
       feature_amo64 := false
       atomic_mode := ucp_atomic_mode.CPU
       iface_cap_flags := fun _ => 0
       md_cap_flags := fun _ => 0
       md_index := fun _ => 0
       dev_name := fun _ => 0
       priority := fun _ => 0
       score := fun _ => 0
       atomic_iface_flags := 0 } : AtomicCtx).feature_amo32 = true := by
  constructor
  · rfl
  · rfl

/-- C9 amended: the atomic_tls mask is empty when the feature set omits
atomics; and with atomics requested, the mask is empty iff no resource
qualifies under the selected policy (CPU: no interface advertises CPU
atomics; DEVICE: the selection loop finds no best resource, which is
exactly when "no support for atomics" is logged). -/
theorem C9_empty_mask_iff (ctx : AtomicCtx) :
    (ctx.feature_amo32 = false ∧ ctx.feature_amo64 = false →
      ucp_worker_init_atomic_tls ctx = ∅) ∧
    (ctx.feature_amo32 = true ∨ ctx.feature_amo64 = true →
      ctx.atomic_mode = ucp_atomic_mode.CPU →
      (ucp_worker_init_atomic_tls ctx = ∅ ↔
        ∀ i < ctx.num_tls,
          ctx.iface_cap_flags i &&& UCT_IFACE_FLAG_ATOMIC_CPU = 0)) ∧
    (ctx.feature_amo32 = true ∨ ctx.feature_amo64 = true →
      ctx.atomic_mode = ucp_atomic_mode.DEVICE →
      (ucp_worker_init_atomic_tls ctx = ∅ ↔
        (ucp_worker_init_device_atomics_select ctx).2.1 = none)) := by
  refine ⟨?_, ?_, ?_⟩
  · rintro ⟨h1, h2⟩
    unfold ucp_worker_init_atomic_tls
    rw [h1, h2]
    rfl
  · intro hf hm
    have hcond : (ctx.feature_amo32 || ctx.feature_amo64) = true := by
      rcases hf with h | h <;> simp [h]
    unfold ucp_worker_init_atomic_tls
    rw [hcond, if_pos rfl, hm]
    show ucp_worker_init_cpu_atomics ctx = ∅ ↔ _
    unfold ucp_worker_init_cpu_atomics
    rw [Finset.filter_eq_empty_iff]
    constructor
    · intro h i hi
      exact not_ne_iff.mp (h (Finset.mem_range.mpr hi))
    · intro h i hi
      exact not_ne_iff.mpr (h i (Finset.mem_range.mp hi))
  · intro hf hm
    have hcond : (ctx.feature_amo32 || ctx.feature_amo64) = true := by
      rcases hf with h | h <;> simp [h]
    unfold ucp_worker_init_atomic_tls
    rw [hcond, if_pos rfl, hm]
    show ucp_worker_init_device_atomics ctx = ∅ ↔ _
    constructor
    · intro h
      by_contra hne
      obtain ⟨best, hbest⟩ := Option.ne_none_iff_exists'.mp hne
      have hinv := device_select_inv ctx (List.range ctx.num_tls) (∅, none, -1, 0)
        (fun i hi => List.mem_range.mp hi) (by intro b hb; cases hb) best hbest
      have hmem : best ∈ ucp_worker_init_device_atomics ctx := by
        unfold ucp_worker_init_device_atomics
        rw [hbest]
        exact Finset.mem_filter.mpr ⟨Finset.mem_range.mpr hinv.2, hinv.1, rfl, rfl⟩
      rw [h] at hmem
      exact absurd hmem (Finset.not_mem_empty best)
    · intro h
      unfold ucp_worker_init_device_atomics
      rw [h]

theorem C9_empty_mask_iff_witness :
    ucp_worker_init_atomic_tls
      { num_tls := 1
        feature_amo32 := true
        feature_amo64 := false
        atomic_mode := ucp_atomic_mode.CPU
        iface_cap_flags := fun _ => 0
        md_cap_flags := fun _ => 0
        md_index := fun _ => 0
        dev_name := fun _ => 0
        priority := fun _ => 0
        score := fun _ => 0
        atomic_iface_flags := 0 } = ∅ ↔
      ∀ i < 1, (0 : ℕ) &&& UCT_IFACE_FLAG_ATOMIC_CPU = 0 :=
  (C9_empty_mask_iff _).2.1 (Or.inl rfl) rfl

/-- C10: for every requested thread mode other than MULTI — including
SERIALIZED — `ucp_worker_create` installs no synchronization primitive
(lock type NONE) and a subsequent `ucp_worker_query` reports thread mode
SINGLE; only a worker created with MULTI gets a lock and reports MULTI. -/
theorem C10_thread_mode (fm : Bool) (requested : ucs_thread_mode)
    (use_mt_mutex : Bool) :
    (ucp_worker_create_thread_mode fm requested ≠ ucs_thread_mode.MULTI →
      ucp_worker_create_mt_type (ucp_worker_create_thread_mode fm requested)
          use_mt_mutex = ucp_mt_type.NONE ∧
      ucp_worker_query_thread_mode
          (ucp_worker_create_mt_type (ucp_worker_create_thread_mode fm requested)
            use_mt_mutex) = ucs_thread_mode.SINGLE) ∧
    (ucp_worker_create_thread_mode fm requested = ucs_thread_mode.MULTI →
      ucp_worker_create_mt_type (ucp_worker_create_thread_mode fm requested)
          use_mt_mutex ≠ ucp_mt_type.NONE ∧
      ucp_worker_query_thread_mode
          (ucp_worker_create_mt_type (ucp_worker_create_thread_mode fm requested)
            use_mt_mutex) = ucs_thread_mode.MULTI) := by
  cases fm <;> cases requested <;> cases use_mt_mutex <;> exact (by decide)

theorem C10_thread_mode_witness :
    (ucp_worker_create_mt_type
        (ucp_worker_create_thread_mode true ucs_thread_mode.SERIALIZED) false =
      ucp_mt_type.NONE ∧
    ucp_worker_query_thread_mode
        (ucp_worker_create_mt_type
          (ucp_worker_create_thread_mode true ucs_thread_mode.SERIALIZED) false) =
      ucs_thread_mode.SINGLE) ∧
    (ucp_worker_create_mt_type
        (ucp_worker_create_thread_mode true ucs_thread_mode.MULTI) false ≠
      ucp_mt_type.NONE ∧
    ucp_worker_query_thread_mode
        (ucp_worker_create_mt_type
          (ucp_worker_create_thread_mode true ucs_thread_mode.MULTI) false) =
      ucs_thread_mode.MULTI) :=
  ⟨(C10_thread_mode true ucs_thread_mode.SERIALIZED false).1 (by decide),
   (C10_thread_mode true ucs_thread_mode.MULTI false).2 (by decide)⟩
